import Mathlib

/-!
# docker-proxy-acl: the allowlist-gated routing and forwarding engine

A shallow embedding of `docker-proxy-acl.go`.  The program registers, for every allowed
category, a handful of path templates on a `gorilla/mux` router (once bare, once under a
`/v<digits>.<digits>` prefix), serves them through `net/http`, and forwards every accepted
`GET` to the Docker socket through one shared `http.Client`.

The file has three layers.

* The program itself: `UpStream.Pass`, `UpStream.Get`, `stringSlice.Set`, the registration
  part of `main`, and `main`.
* The library calls the program relies on, each modelled after the library function it is
  named for: `http.Error`, `http.NotFound`, `Header.Get`/`Header.Set`, `path.Clean`,
  the `cleanPath` of `net/http` and `mux`, `ServeMux` dispatch for the pattern `/`,
  `mux` route templates, their regular expressions, and `Router.ServeHTTP`.
* The vocabulary of the specification (`Spec.*`): the category table of §4.1 and what it
  means for a path to instantiate a template.

Go strings that hold text (methods, paths, queries, header values) are Lean strings; payloads
are lists of bytes.
-/

namespace DockerProxyAcl

/-! ## Bytes, headers, response writer -/

/-- A byte slice. -/
abbrev Bytes := List UInt8

/-- The bytes of a string literal of the program; every literal written by the program and by
the library calls modelled here is plain ASCII, one byte per character. -/
def asciiBytes (s : String) : Bytes := s.toList.map fun c => UInt8.ofNat c.toNat

/-- The case mapping of `textproto.CanonicalMIMEHeaderKey`: the first letter and every letter
after a hyphen in upper case, all others in lower case.  (The library returns keys holding a
byte outside the header-token alphabet unchanged; the program only ever passes the constant
`Content-type`.) -/
def canonicalMIMEHeaderBytes : Bool → List Char → List Char
  | _, [] => []
  | upper, c :: cs =>
    (if upper then c.toUpper else c.toLower) :: canonicalMIMEHeaderBytes (c == '-') cs

/-- Canonical form of a header name, `http.CanonicalHeaderKey`. -/
def canonicalMIMEHeaderKey (s : String) : String :=
  String.mk (canonicalMIMEHeaderBytes true s.toList)

/-- An `http.Header`: the values stored under each canonical key (none: the empty list). -/
abbrev Header := String → List String

/-- The header map of a fresh response or of a response without any header. -/
def Header.empty : Header := fun _ => []

/-- The method `Header.Get`: first value stored under the canonical form of `key`, or `""`. -/
def Header.Get (h : Header) (key : String) : String :=
  (h (canonicalMIMEHeaderKey key)).headD ""

/-- The method `Header.Set`: replace the values under the canonical form of `key` by the single `value`. -/
def Header.Set (h : Header) (key value : String) : Header :=
  fun k => if k = canonicalMIMEHeaderKey key then [value] else h k

/-- The state of an `http.ResponseWriter` as a handler leaves it: the header map, the status
code of the response header once it has been written (`none` before), and the body bytes
written so far. -/
structure ResponseWriter where
  header : Header
  status : Option Nat
  body : Bytes

/-- A response writer nothing has been written to. -/
def ResponseWriter.fresh : ResponseWriter := ⟨Header.empty, none, []⟩

/-- The method `WriteHeader(code)`: sends the response header with `code`; a second call has no effect. -/
def ResponseWriter.WriteHeader (w : ResponseWriter) (code : Nat) : ResponseWriter :=
  match w.status with
  | none => { w with status := some code }
  | some _ => w

/-- The method `Write(b)`: if the response header has not been written yet it is written with the
implicit status 200; then `b` is appended to the body. -/
def ResponseWriter.Write (w : ResponseWriter) (b : Bytes) : ResponseWriter :=
  let w1 := w.WriteHeader 200
  { w1 with body := w1.body ++ b }

/-- The library function `http.Error(w, error, code)`: two fixed headers, the status code, and
`fmt.Fprintln(w, error)`, which writes the message followed by a newline. -/
def Error (w : ResponseWriter) (error : String) (code : Nat) : ResponseWriter :=
  let w1 := { w with header := w.header.Set "Content-Type" "text/plain; charset=utf-8" }
  let w2 := { w1 with header := w1.header.Set "X-Content-Type-Options" "nosniff" }
  (w2.WriteHeader code).Write (asciiBytes error ++ asciiBytes "\n")

/-- The library function `http.NotFound`. -/
def NotFound (w : ResponseWriter) : ResponseWriter := Error w "404 page not found" 404

/-! ## Requests and the upstream client -/

/-- The fields of `url.URL` that matter here.  `RawQuery` is the text after the first `?`
(without it); `ForceQuery` records a request target that ends in a bare `?`, in which case
`RawQuery` is empty. -/
structure URL where
  Path : String
  RawQuery : String
  ForceQuery : Bool

/-- An incoming `*http.Request`. -/
structure Request where
  Method : String
  URL : URL

/-- An `*http.Response` of the upstream, as far as the program reads it.  `Body` is what
`ioutil.ReadAll` returns for it: the bytes read and, if reading stopped early, the error. -/
structure Response where
  StatusCode : Nat
  Header : Header
  Body : Bytes × Option String

/-- The upstream client: `handle` stands for `r.handle.Get`, the GET issued over the Docker
socket, which either fails or yields a response. -/
structure UpStream where
  Name : String
  handle : String → Except String Response

/-- What one handler invocation does to the outside: the response writer, and the targets of
the upstream GETs issued, in order. -/
structure World where
  res : ResponseWriter
  calls : List String

/-- The method `UpStream.Get` of the program (lines 36-47). -/
def UpStream.Get (r : UpStream) (url : String) (w : World) : (Bytes × Option String) × World :=
  let w := { w with calls := w.calls ++ [url] }
  match r.handle url with
  | .error err => (([], some err), w)
  | .ok req =>
    let contentType := req.Header.Get "Content-type"
    let w :=
      if contentType ≠ "" then
        { w with res := { w.res with header := w.res.header.Set "Content-type" contentType } }
      else w
    (req.Body, w)

/-- The target `Pass` hands to `Get` (lines 27-31). -/
def target (req : Request) : String :=
  let param := if req.URL.RawQuery.length > 0 then "?" ++ req.URL.RawQuery else ""
  "http://docker" ++ req.URL.Path ++ param

/-- The handler returned by `UpStream.Pass` (lines 21-34). -/
def UpStream.Pass (r : UpStream) (req : Request) (w : World) : World :=
  if req.Method ≠ "GET" then
    { w with res := Error w.res "400 Bad request ; only GET allowed." 400 }
  else
    let (out, w) := r.Get (target req) w
    { w with res := w.res.Write out.1 }

/-! ## Route templates and their regular expressions (gorilla/mux) -/

/-- The character classes occurring in the program's templates: a one-character class such as
`[v]` or `[.]`, `[0-9]`, and `[^/]`. -/
inductive CharClass where
  | only (c : Char)
  | digit
  | notSlash
deriving DecidableEq, Repr

/-- Membership of a character in a class. -/
def CharClass.mem : CharClass → Char → Bool
  | .only c, x => x == c
  | .digit, x => decide ('0' ≤ x ∧ x ≤ '9')
  | .notSlash, x => x != '/'

/-- One item of a variable's pattern: a class, or a class under `+`. -/
inductive Atom where
  | one (c : CharClass)
  | plus (c : CharClass)
deriving DecidableEq, Repr

/-- One piece of a path template as `mux` splits it at the braces: raw text, matched
literally, or a variable `{name:pattern}`. -/
inductive Tok where
  | raw (s : String)
  | var (name : String) (patt : List Atom)
deriving DecidableEq, Repr

/-- A path template. -/
abbrev Template := List Tok

/-- The pattern `[^/]+` that `mux` gives a path variable written without one. -/
def defaultPattern : List Atom := [.plus .notSlash]

/-- The pattern `[v][0-9]+[.][0-9]+` of line 95. -/
def versionPattern : List Atom :=
  [.one (.only 'v'), .plus .digit, .one (.only '.'), .plus .digit]

/-- What can remain of the input after `c+` has matched a prefix of it: every suffix reached
by dropping one or more leading characters of the class. -/
def plusRems (c : CharClass) : List Char → List (List Char)
  | [] => []
  | x :: xs => if c.mem x then xs :: plusRems c xs else []

/-- Every remainder of the input after the pattern has matched a prefix of it. -/
def matchAtoms : List Atom → List Char → List (List Char)
  | [], s => [s]
  | .one c :: as, s =>
    match s with
    | [] => []
    | x :: xs => if c.mem x then matchAtoms as xs else []
  | .plus c :: as, s => (plusRems c s).flatMap (matchAtoms as)

/-- The rest of `s` after the literal text `l`, if `s` starts with it. -/
def stripPrefix : List Char → List Char → Option (List Char)
  | [], s => some s
  | _ :: _, [] => none
  | a :: l, x :: s => if a = x then stripPrefix l s else none

/-- Every remainder of the input after the template, anchored at the start (`^`), has
matched a prefix of it: raw text is quoted, a variable contributes the group of its
pattern. -/
def matchToks : Template → List Char → List (List Char)
  | [], s => [s]
  | .raw l :: ts, s =>
    match stripPrefix l.toList s with
    | some rest => matchToks ts rest
    | none => []
  | .var _ patt :: ts, s => (matchAtoms patt s).flatMap (matchToks ts)

/-- The regular expression of a route registered with `HandleFunc`/`Path`: `^template$`. -/
def pathRegexp (tpl : Template) (path : String) : Bool :=
  (matchToks tpl path.toList).any List.isEmpty

/-- The regular expression of a route registered with `PathPrefix`: `^template`. -/
def prefixRegexp (tpl : Template) (path : String) : Bool :=
  !(matchToks tpl path.toList).isEmpty

/-- A route of a `mux.Router`.  `handleFunc` is a route made by `HandleFunc(tpl, h)`; the
handler is not recorded because every handler of the program is `upstream.Pass()`.  `sub` is a
route made by `PathPrefix(tpl).Subrouter()` together with the routes later registered on that
subrouter.  Templates are stored in full: `mux` prepends the template of the enclosing route
(less any trailing slash; the templates of the program have none) to the template given at
registration, and matches the whole request path against the result. -/
inductive Route where
  | handleFunc (tpl : Template) : Route
  | sub (tpl : Template) (routes : List Route) : Route

mutual
/-- The method `Route.Match`: all matchers of the route accept the request.  A subrouter is a
matcher that accepts when one of its routes does. -/
def Route.Match : Route → String → Bool
  | .handleFunc tpl, path => pathRegexp tpl path
  | .sub tpl routes, path => prefixRegexp tpl path && Route.anyMatch routes path
/-- The method `Router.Match`: the first route, in registration order, that matches. -/
def Route.anyMatch : List Route → String → Bool
  | [], _ => false
  | r :: rs, path => r.Match path || Route.anyMatch rs path
end

/-- A `*mux.Router` while routes are being registered on it: the template inherited from the
route it is a subrouter of (empty for the root) and its routes in registration order. -/
structure Router where
  tpl : Template
  routes : List Route

/-- The constructor `mux.NewRouter()`. -/
def NewRouter : Router := ⟨[], []⟩

/-- The method `m.HandleFunc(tpl, upstream.Pass())`. -/
def Router.HandleFunc (m : Router) (tpl : Template) : Router :=
  { m with routes := m.routes ++ [.handleFunc (m.tpl ++ tpl)] }

/-- The call `sub := m.PathPrefix(tpl).Subrouter()` followed by the registrations `body` made
on `sub`. -/
def Router.PathPrefixSubrouter (m : Router) (tpl : Template) (body : Router → Router) : Router :=
  { m with routes := m.routes ++ [.sub (m.tpl ++ tpl) (body ⟨m.tpl ++ tpl, []⟩).routes] }

/-! ## Path canonicalisation (`path.Clean`, `cleanPath`) -/

/-- The path elements between slashes, `strings.Split(s, "/")`. -/
def splitSlash : List Char → List (List Char)
  | [] => [[]]
  | c :: cs =>
    if c = '/' then [] :: splitSlash cs
    else
      match splitSlash cs with
      | [] => [[c]]
      | e :: es => (c :: e) :: es

/-- The element loop of `path.Clean`.  `out` holds the elements written so far, last one
first.  Empty elements and `.` are dropped; `..` removes the last element written when there
is one that is not itself `..`, is kept on an unrooted path, and is dropped at the root. -/
def cleanElems (rooted : Bool) : List (List Char) → List (List Char) → List (List Char)
  | out, [] => out
  | out, e :: es =>
    if e = [] ∨ e = ['.'] then cleanElems rooted out es
    else if e = ['.', '.'] then
      match out with
      | top :: below =>
        if top = ['.', '.'] then cleanElems rooted (e :: out) es
        else cleanElems rooted below es
      | [] => if rooted then cleanElems rooted [] es else cleanElems rooted [e] es
    else cleanElems rooted (e :: out) es

/-- The elements joined by single slashes. -/
def joinSlash : List (List Char) → List Char
  | [] => []
  | [e] => e
  | e :: es => e ++ '/' :: joinSlash es

/-- The library function `path.Clean`, computed on the path elements instead of the byte
buffer of the library: the result is rooted when the input is, its elements are the ones
`cleanElems` keeps, joined by single slashes, and an empty result is `.`. -/
def Clean (path : List Char) : List Char :=
  match path with
  | [] => ['.']
  | c :: _ =>
    let rooted := c == '/'
    let out := joinSlash (cleanElems rooted [] (splitSlash path)).reverse
    if rooted then '/' :: out
    else if out = [] then ['.'] else out

/-- The function `cleanPath` of `net/http` and of `mux`: the canonical form of a request
path. -/
def cleanPathChars (p : List Char) : List Char :=
  match p with
  | [] => ['/']
  | c :: _ =>
    let p := if c ≠ '/' then '/' :: p else p
    let np := Clean p
    if p.getLast? = some '/' ∧ np ≠ ['/'] then np ++ ['/'] else np

/-- The function `cleanPath` on strings. -/
def cleanPath (p : String) : String := String.mk (cleanPathChars p.toList)

/-! ## Dispatch (`net/http` server, `ServeMux`, `mux.Router.ServeHTTP`) -/

/-- Who answers a request. -/
inductive Dispatch where
  /-- The request `OPTIONS *`, answered by the server itself with an empty 200. -/
  | options
  /-- Any other request for `*`, refused by `ServeMux` with 400. -/
  | badRequest
  /-- A request whose path is not canonical, redirected (301) to the canonical path. -/
  | redirect (location : String)
  /-- No pattern or route matches: `http.NotFound`. -/
  | notFound
  /-- A route matches: its handler, `upstream.Pass()`. -/
  | handler
deriving DecidableEq, Repr

/-- The method `Router.ServeHTTP` of `mux`: a path that is not canonical is redirected; else
the handler of the matching route runs, or the not-found handler when there is none (no route
of the program has a method matcher). -/
def Router.ServeHTTP (routes : List Route) (req : Request) : Dispatch :=
  if cleanPath req.URL.Path ≠ req.URL.Path then .redirect (cleanPath req.URL.Path)
  else if Route.anyMatch routes req.URL.Path then .handler
  else .notFound

/-- The default `ServeMux` with the one registration `http.Handle("/", router)` of line 178,
below the server's own treatment of the request target `*` (the server parses that target,
and no other, to the path `*`).  Except for CONNECT, a path that is not canonical is
redirected.  The pattern `/` matches the paths that start with a slash. -/
def ServeMux.ServeHTTP (routes : List Route) (req : Request) : Dispatch :=
  if req.URL.Path = "*" then
    if req.Method = "OPTIONS" then .options else .badRequest
  else if req.Method ≠ "CONNECT" ∧ cleanPath req.URL.Path ≠ req.URL.Path then
    .redirect (cleanPath req.URL.Path)
  else if req.URL.Path.toList.head? = some '/' then Router.ServeHTTP routes req
  else .notFound

/-! ## `main` -/

/-- The method `stringSlice.Set` (lines 68-72): every `-a` value is appended. -/
def stringSlice.Set (s : List String) (value : String) : List String := s ++ [value]

/-- A Go `map[string]bool`; a missing key reads as `false`. -/
abbrev BoolMap := String → Bool

/-- Lines 89-91: `allowedMap[s] = true` for every `s` of `allowed`. -/
def allowedMap (allowed : List String) : BoolMap :=
  allowed.foldl (fun m s => fun k => if k = s then true else m k) (fun _ => false)

/-- The array `routers` of line 93: `routers[0]` is the root router, `routers[1]` the
subrouter mounted on it at line 95.  The pair holds the routes registered on each after
line 95. -/
abbrev Routers := Router × Router

/-- The template `/{version:[v][0-9]+[.][0-9]+}` of line 95. -/
def versionTemplate : Template := [.raw "/", .var "version" versionPattern]

/-- Lines 93-95. -/
def newRouters : Routers := (NewRouter, ⟨NewRouter.tpl ++ versionTemplate, []⟩)

/-- The loop `for _, m := range routers`. -/
def forRouters (body : Router → Router) (rs : Routers) : Routers := (body rs.1, body rs.2)

/-- Lines 101-105, the body of the loop for `containers`. -/
def containersHandlers (m : Router) : Router :=
  m.PathPrefixSubrouter [.raw "/containers"] fun containers =>
    (containers.HandleFunc [.raw "/json"]).HandleFunc
      [.raw "/", .var "name" defaultPattern, .raw "/json"]

/-- Lines 110-115, the body of the loop for `images`. -/
def imagesHandlers (m : Router) : Router :=
  m.PathPrefixSubrouter [.raw "/images"] fun containers =>
    ((containers.HandleFunc [.raw "/json"]).HandleFunc
      [.raw "/", .var "name" defaultPattern, .raw "/json"]).HandleFunc
      [.raw "/", .var "name" defaultPattern, .raw "/history"]

/-- Lines 120-123, the body of the loop for `volumes`. -/
def volumesHandlers (m : Router) : Router :=
  (m.HandleFunc [.raw "/volumes"]).HandleFunc [.raw "/volumes/", .var "name" defaultPattern]

/-- Lines 128-131, the body of the loop for `networks`. -/
def networksHandlers (m : Router) : Router :=
  (m.HandleFunc [.raw "/networks"]).HandleFunc [.raw "/networks/", .var "name" defaultPattern]

/-- Lines 136-139, the body of the loop for `services`. -/
def servicesHandlers (m : Router) : Router :=
  (m.HandleFunc [.raw "/services"]).HandleFunc [.raw "/services/", .var "name" defaultPattern]

/-- Lines 144-147, the body of the loop for `tasks`. -/
def tasksHandlers (m : Router) : Router :=
  (m.HandleFunc [.raw "/tasks"]).HandleFunc [.raw "/tasks/", .var "name" defaultPattern]

/-- Lines 152-154, the body of the loop for `events`. -/
def eventsHandlers (m : Router) : Router := m.HandleFunc [.raw "/events"]

/-- Lines 159-161, the body of the loop for `version`. -/
def versionHandlers (m : Router) : Router := m.HandleFunc [.raw "/version"]

/-- Lines 166-168, the body of the loop for `info`. -/
def infoHandlers (m : Router) : Router := m.HandleFunc [.raw "/info"]

/-- Lines 173-175, the body of the loop for `ping`. -/
def pingHandlers (m : Router) : Router := m.HandleFunc [.raw "/_ping"]

/-- Lines 99-176: the ten conditional registrations. -/
def registerHandlers (allowedMap : BoolMap) (rs : Routers) : Routers :=
  let rs := if allowedMap "containers" then forRouters containersHandlers rs else rs
  let rs := if allowedMap "images" then forRouters imagesHandlers rs else rs
  let rs := if allowedMap "volumes" then forRouters volumesHandlers rs else rs
  let rs := if allowedMap "networks" then forRouters networksHandlers rs else rs
  let rs := if allowedMap "services" then forRouters servicesHandlers rs else rs
  let rs := if allowedMap "tasks" then forRouters tasksHandlers rs else rs
  let rs := if allowedMap "events" then forRouters eventsHandlers rs else rs
  let rs := if allowedMap "version" then forRouters versionHandlers rs else rs
  let rs := if allowedMap "info" then forRouters infoHandlers rs else rs
  let rs := if allowedMap "ping" then forRouters pingHandlers rs else rs
  rs

/-- The routes of the root router once registration is over: the route of line 95 with the
routes of `routers[1]` below it, then the routes registered on `routers[0]` directly. -/
def rootRoutes (rs : Routers) : List Route :=
  .sub rs.2.tpl rs.2.routes :: rs.1.routes

/-- The routes `main` serves for the `-a` values `allowed` (lines 89-178). -/
def routes (allowed : List String) : List Route :=
  rootRoutes (registerHandlers (allowedMap allowed) newRouters)

/-- The function `main` up to the point where it starts serving: without any `-a` value the
process prints a message and exits (lines 84-87); otherwise it serves `routes allowed`. -/
def main (allowed : List String) : Option (List Route) :=
  if allowed.length < 1 then none else some (routes allowed)

/-- The answer of the running server to one request: who answers it, what is written to the
response, and which upstream GETs are issued.  Of the responses the libraries write
themselves, the status code is kept, for a redirect also the canonical path it points to
(without the URL escaping and the query that the library adds to the `Location` value, and
without the short HTML body). -/
def serve (allowed : List String) (upstream : UpStream) (req : Request) : Dispatch × World :=
  let d := ServeMux.ServeHTTP (routes allowed) req
  let w : World := ⟨ResponseWriter.fresh, []⟩
  match d with
  | .options => (d, { w with res := w.res.WriteHeader 200 })
  | .badRequest => (d, { w with res := w.res.WriteHeader 400 })
  | .redirect location => (d, { w with res :=
      ({ w.res with header := w.res.header.Set "Location" location }).WriteHeader 301 })
  | .notFound => (d, { w with res := NotFound w.res })
  | .handler => (d, upstream.Pass req w)

/-- The status code the client receives. -/
def statusOf (w : World) : Nat := w.res.status.getD 200

/-! ## The vocabulary of the specification -/

namespace Spec

/-- One slash-separated element of a path template of §4.1: fixed text, or the placeholder
`{name}`. -/
inductive Seg where
  | text (s : String)
  | name
deriving DecidableEq, Repr

/-- A path template of §4.1, as the list of its elements: `/containers/{name}/json` is
`[text "containers", name, text "json"]`. -/
abbrev PathTemplate := List Seg

/-- The table of §4.1: each recognized category with its path templates. -/
def table : List (String × List PathTemplate) :=
  [ ("containers", [[.text "containers", .text "json"],
                    [.text "containers", .name, .text "json"]]),
    ("images", [[.text "images", .text "json"],
                [.text "images", .name, .text "json"],
                [.text "images", .name, .text "history"]]),
    ("volumes", [[.text "volumes"], [.text "volumes", .name]]),
    ("networks", [[.text "networks"], [.text "networks", .name]]),
    ("services", [[.text "services"], [.text "services", .name]]),
    ("tasks", [[.text "tasks"], [.text "tasks", .name]]),
    ("events", [[.text "events"]]),
    ("version", [[.text "version"]]),
    ("info", [[.text "info"]]),
    ("ping", [[.text "_ping"]]) ]

/-- The ten recognized category names. -/
def categories : List String := table.map Prod.fst

/-- The bare path a template yields when `{name}` is instantiated by `name`. -/
def render (name : String) : PathTemplate → String
  | [] => ""
  | .text s :: rest => "/" ++ s ++ render name rest
  | .name :: rest => "/" ++ name ++ render name rest

/-- A value the placeholder accepts according to §4.2: a non-empty segment without a slash. -/
def validName (name : String) : Prop := name ≠ "" ∧ '/' ∉ name.toList

/-- One or more decimal digits. -/
def digits (s : String) : Prop := s ≠ "" ∧ ∀ c ∈ s.toList, c.isDigit = true

/-- A version prefix `v<digits>.<digits>`. -/
def versionPrefix (v : String) : Prop :=
  ∃ major minor, digits major ∧ digits minor ∧ v = "v" ++ major ++ "." ++ minor

/-- The path instantiates the template: it is the bare form for some valid name, or the bare
form behind `/` and a version prefix. -/
def instantiates (tpl : PathTemplate) (path : String) : Prop :=
  (∃ name, validName name ∧ path = render name tpl) ∨
  (∃ v name, versionPrefix v ∧ validName name ∧ path = "/" ++ v ++ render name tpl)

/-- The path instantiates a template of some category that is in the Allowed Set. -/
def allowedPath (allowed : List String) (path : String) : Prop :=
  ∃ e ∈ table, e.1 ∈ allowed ∧ ∃ tpl ∈ e.2, instantiates tpl path

/-- The split of a forwarded target, after the marker `http://docker`, at its first `?`:
the path part before it and the query part after it (empty without a `?`). -/
def splitTarget (target : String) : String × String :=
  let rest := target.toList.drop "http://docker".length
  (String.mk (rest.takeWhile (· ≠ '?')), String.mk ((rest.dropWhile (· ≠ '?')).drop 1))

/-- The request carried a query string: its target had a `?`, followed by a non-empty query
(`RawQuery`) or by nothing (`ForceQuery`). -/
def hasQuery (u : URL) : Bool := u.RawQuery != "" || u.ForceQuery

/-- The forwarded target as the specification words it: the marker and the path, followed by
`?` and the raw query when the request carried a query string. -/
def expectedTarget (req : Request) : String :=
  if hasQuery req.URL then "http://docker" ++ req.URL.Path ++ "?" ++ req.URL.RawQuery
  else "http://docker" ++ req.URL.Path

end Spec

/-! ## Sample collaborators -/

/-- An upstream whose socket cannot be dialled: every GET fails. -/
def deadUpstream : UpStream :=
  ⟨"/var/run/docker.sock", fun _ => .error "dial unix /var/run/docker.sock: connect: no such file"⟩

/-- An upstream that answers every GET with status 404, the content type
`application/json` and the two-byte body `{}`. -/
def jsonUpstream : UpStream :=
  ⟨"/var/run/docker.sock", fun _ => .ok
    ⟨404, Header.empty.Set "Content-Type" "application/json", ([123, 125], none)⟩⟩

/-- An upstream whose responses carry no content type and whose body breaks off after the
three bytes `[1, 2, 3]`. -/
def brokenUpstream : UpStream :=
  ⟨"/var/run/docker.sock", fun _ => .ok ⟨200, Header.empty, ([1, 2, 3], some "unexpected EOF")⟩⟩

/-! ## Vocabulary of the proofs -/

/-- A list of one or more decimal digits. -/
def digitChars (d : List Char) : Prop := d ≠ [] ∧ ∀ c ∈ d, c.isDigit = true

/-- The text a template matches once its variables are given the value `nm`. -/
def fill (nm : List Char) : Template → List Char
  | [] => []
  | .raw l :: ts => l.toList ++ fill nm ts
  | .var _ _ :: ts => nm ++ fill nm ts

/-- A template without variables. -/
def rawOnly (T : Template) : Prop := ∀ t ∈ T, ∃ l, t = Tok.raw l

/-- The routes the registration of all allowed categories adds to a router with template
`tpl`, in registration order. -/
def added (am : BoolMap) (tpl : Template) : List Route :=
  (if am "containers" = true then (containersHandlers ⟨tpl, []⟩).routes else []) ++
  ((if am "images" = true then (imagesHandlers ⟨tpl, []⟩).routes else []) ++
  ((if am "volumes" = true then (volumesHandlers ⟨tpl, []⟩).routes else []) ++
  ((if am "networks" = true then (networksHandlers ⟨tpl, []⟩).routes else []) ++
  ((if am "services" = true then (servicesHandlers ⟨tpl, []⟩).routes else []) ++
  ((if am "tasks" = true then (tasksHandlers ⟨tpl, []⟩).routes else []) ++
  ((if am "events" = true then (eventsHandlers ⟨tpl, []⟩).routes else []) ++
  ((if am "version" = true then (versionHandlers ⟨tpl, []⟩).routes else []) ++
  ((if am "info" = true then (infoHandlers ⟨tpl, []⟩).routes else []) ++
  (if am "ping" = true then (pingHandlers ⟨tpl, []⟩).routes else [])))))))))

/-- The characters of `Spec.render`. -/
def renderChars (nm : List Char) : Spec.PathTemplate → List Char
  | [] => []
  | .text s :: rest => '/' :: (s.toList ++ renderChars nm rest)
  | .name :: rest => '/' :: (nm ++ renderChars nm rest)

/-- What a prefix template accepts: `P` describes the texts it matches. -/
def PrefixSem (pre : Template) (P : List Char → Prop) : Prop :=
  ∀ s r, r ∈ matchToks pre s ↔ ∃ x, P x ∧ s = x ++ r

/-- The path is some text accepted by the prefix followed by an instance of the template. -/
def inst (P : List Char → Prop) (path : String) (tpl : Spec.PathTemplate) : Prop :=
  ∃ x, P x ∧ ∃ nm, nm ≠ [] ∧ '/' ∉ nm ∧ path.toList = x ++ renderChars nm tpl

/-- The texts the template of line 95 matches: `/v<digits>.<digits>`. -/
def versionText (x : List Char) : Prop :=
  ∃ ma mi, digitChars ma ∧ digitChars mi ∧ x = '/' :: 'v' :: (ma ++ '.' :: mi)

/-- The path made of the given elements, each behind a slash. -/
def slashJoin : List (List Char) → List Char
  | [] => []
  | e :: es => '/' :: (e ++ slashJoin es)

/-- A path element that `path.Clean` keeps as it is: not empty, without a slash, and neither
`.` nor `..`. -/
def goodElem (e : List Char) : Prop := e ≠ [] ∧ '/' ∉ e ∧ e ≠ ['.'] ∧ e ≠ ['.', '.']

instance (e : List Char) : Decidable (goodElem e) := by unfold goodElem; infer_instance

/-- The characters of one template element once the placeholder has the value `nm`. -/
def segChars (nm : List Char) : Spec.Seg → List Char
  | .text s => s.toList
  | .name => nm

/-- The fixed text a template starts with, if it starts with one. -/
def headText : Spec.PathTemplate → Option (List Char)
  | .text s :: _ => some s.toList
  | _ => none

/-- The element starts like a version prefix: a `v` and a digit. -/
def looksVersioned : List Char → Bool
  | 'v' :: d :: _ => d.isDigit
  | _ => false

/-- The template starts with fixed text that does not start like a version prefix. -/
def headOk : Spec.PathTemplate → Bool
  | .text s :: _ => !looksVersioned s.toList
  | _ => false

/-! ## Regular expressions: what the matchers accept -/

theorem mem_plusRems (c : CharClass) (r : List Char) :
    ∀ s, r ∈ plusRems c s ↔ ∃ pre, pre ≠ [] ∧ (∀ x ∈ pre, c.mem x = true) ∧ s = pre ++ r := by
  intro s
  induction s with
  | nil =>
    simp only [plusRems, List.not_mem_nil, false_iff]
    rintro ⟨pre, hne, -, heq⟩
    cases pre with
    | nil => exact hne rfl
    | cons y ys => simp at heq
  | cons x xs ih =>
    by_cases hx : c.mem x = true
    · simp only [plusRems, hx, if_true, List.mem_cons, ih]
      constructor
      · rintro (rfl | ⟨pre, hne, hall, rfl⟩)
        · exact ⟨[x], by simp, by simpa using hx, by simp⟩
        · exact ⟨x :: pre, by simp, by simpa [hx] using hall, by simp⟩
      · rintro ⟨pre, hne, hall, heq⟩
        cases pre with
        | nil => exact absurd rfl hne
        | cons y ys =>
          simp only [List.cons_append, List.cons.injEq] at heq
          obtain ⟨rfl, rfl⟩ := heq
          cases ys with
          | nil => left; simp
          | cons z zs =>
            right
            exact ⟨z :: zs, by simp, fun a ha => hall a (List.mem_cons_of_mem _ ha), rfl⟩
    · simp only [plusRems, hx, Bool.false_eq_true, if_false, List.not_mem_nil, false_iff]
      rintro ⟨pre, hne, hall, heq⟩
      cases pre with
      | nil => exact hne rfl
      | cons y ys =>
        simp only [List.cons_append, List.cons.injEq] at heq
        obtain ⟨rfl, -⟩ := heq
        exact hx (hall _ (List.mem_cons_self _ _))

theorem mem_matchAtoms_one (c : CharClass) (as : List Atom) (s r : List Char) :
    r ∈ matchAtoms (.one c :: as) s ↔
      ∃ x xs, s = x :: xs ∧ c.mem x = true ∧ r ∈ matchAtoms as xs := by
  cases s with
  | nil => simp [matchAtoms]
  | cons x xs =>
    by_cases hx : c.mem x = true
    · simp only [matchAtoms, hx, if_true, List.cons.injEq]
      constructor
      · intro h; exact ⟨x, xs, ⟨rfl, rfl⟩, hx, h⟩
      · rintro ⟨y, ys, ⟨rfl, rfl⟩, -, h⟩; exact h
    · simp only [matchAtoms, hx, Bool.false_eq_true, if_false, List.not_mem_nil, false_iff]
      rintro ⟨y, ys, h, hy, -⟩
      simp only [List.cons.injEq] at h
      obtain ⟨rfl, rfl⟩ := h
      exact hx hy

theorem mem_matchAtoms_plus (c : CharClass) (as : List Atom) (s r : List Char) :
    r ∈ matchAtoms (.plus c :: as) s ↔
      ∃ pre t, pre ≠ [] ∧ (∀ x ∈ pre, c.mem x = true) ∧ s = pre ++ t ∧ r ∈ matchAtoms as t := by
  simp only [matchAtoms, List.mem_flatMap, mem_plusRems]
  constructor
  · rintro ⟨t, ⟨pre, h1, h2, h3⟩, h4⟩
    exact ⟨pre, t, h1, h2, h3, h4⟩
  · rintro ⟨pre, t, h1, h2, h3, h4⟩
    exact ⟨t, ⟨pre, h1, h2, h3⟩, h4⟩

theorem mem_matchAtoms_nil (s r : List Char) : r ∈ matchAtoms [] s ↔ r = s := by
  simp [matchAtoms]

theorem stripPrefix_eq_some (l s r : List Char) : stripPrefix l s = some r ↔ s = l ++ r := by
  induction l generalizing s with
  | nil => simp [stripPrefix, eq_comm]
  | cons a l ih =>
    cases s with
    | nil => simp [stripPrefix]
    | cons x s =>
      by_cases h : a = x
      · subst h; simp [stripPrefix, ih]
      · simp [stripPrefix, h, Ne.symm h]

theorem mem_matchToks_nil (s r : List Char) : r ∈ matchToks [] s ↔ r = s := by
  simp [matchToks]

theorem mem_matchToks_raw (l : String) (ts : Template) (s r : List Char) :
    r ∈ matchToks (.raw l :: ts) s ↔ ∃ t, s = l.toList ++ t ∧ r ∈ matchToks ts t := by
  simp only [matchToks]
  cases h : stripPrefix l.toList s with
  | none =>
    simp only [List.not_mem_nil, false_iff]
    rintro ⟨t, ht, -⟩
    have := (stripPrefix_eq_some l.toList s t).2 ht
    rw [h] at this
    exact Option.noConfusion this
  | some rest =>
    have hs := (stripPrefix_eq_some _ _ _).1 h
    constructor
    · intro hr; exact ⟨rest, hs, hr⟩
    · rintro ⟨t, ht, hr⟩
      have : rest = t := List.append_cancel_left (hs.symm.trans ht)
      simpa [this] using hr

theorem mem_matchToks_var (n : String) (patt : List Atom) (ts : Template) (s r : List Char) :
    r ∈ matchToks (.var n patt :: ts) s ↔ ∃ t, t ∈ matchAtoms patt s ∧ r ∈ matchToks ts t := by
  simp [matchToks, List.mem_flatMap]

theorem matchToks_append (t1 t2 : Template) :
    ∀ s, matchToks (t1 ++ t2) s = (matchToks t1 s).flatMap (matchToks t2) := by
  induction t1 with
  | nil => intro s; simp [matchToks]
  | cons tok ts ih =>
    intro s
    cases tok with
    | raw l =>
      simp only [List.cons_append, matchToks]
      cases stripPrefix l.toList s with
      | none => simp
      | some rest => simp [ih]
    | var n patt =>
      simp only [List.cons_append, matchToks, List.flatMap_assoc]
      congr 1
      funext t
      exact ih t

theorem mem_defaultPattern (s r : List Char) :
    r ∈ matchAtoms defaultPattern s ↔ ∃ nm, nm ≠ [] ∧ '/' ∉ nm ∧ s = nm ++ r := by
  simp only [defaultPattern, mem_matchAtoms_plus, mem_matchAtoms_nil]
  constructor
  · rintro ⟨pre, t, hne, hall, rfl, rfl⟩
    refine ⟨pre, hne, ?_, rfl⟩
    intro hmem
    have := hall _ hmem
    simp [CharClass.mem] at this
  · rintro ⟨nm, hne, hns, rfl⟩
    refine ⟨nm, r, hne, ?_, rfl, rfl⟩
    intro x hx
    simp only [CharClass.mem, bne_iff_ne, ne_eq]
    rintro rfl
    exact hns hx

theorem digit_mem_iff (x : Char) : CharClass.digit.mem x = true ↔ x.isDigit = true := by
  simp only [CharClass.mem, Char.isDigit, decide_eq_true_eq, Bool.and_eq_true, Char.le_def]
  constructor
  · rintro ⟨h1, h2⟩
    exact ⟨by simpa [UInt32.le_def] using h1, by simpa [UInt32.le_def] using h2⟩
  · rintro ⟨h1, h2⟩
    exact ⟨by simpa [UInt32.le_def] using h1, by simpa [UInt32.le_def] using h2⟩

theorem mem_versionPattern (s r : List Char) :
    r ∈ matchAtoms versionPattern s ↔
      ∃ ma mi, digitChars ma ∧ digitChars mi ∧ s = 'v' :: (ma ++ '.' :: (mi ++ r)) := by
  simp only [versionPattern, mem_matchAtoms_plus, mem_matchAtoms_one, mem_matchAtoms_nil,
    digitChars]
  constructor
  · rintro ⟨x, xs, rfl, hx, ma, t, hma, hmad, rfl, y, ys, rfl, hy, mi, t2, hmi, hmid, rfl, rfl⟩
    simp only [CharClass.mem, beq_iff_eq] at hx hy
    subst hx hy
    exact ⟨ma, mi, ⟨hma, fun c hc => (digit_mem_iff c).1 (hmad c hc)⟩,
      ⟨hmi, fun c hc => (digit_mem_iff c).1 (hmid c hc)⟩, rfl⟩
  · rintro ⟨ma, mi, ⟨hma, hmad⟩, ⟨hmi, hmid⟩, rfl⟩
    exact ⟨'v', _, rfl, by simp [CharClass.mem], ma, _, hma,
      fun c hc => (digit_mem_iff c).2 (hmad c hc), rfl, '.', _, rfl, by simp [CharClass.mem],
      mi, r, hmi, fun c hc => (digit_mem_iff c).2 (hmid c hc), rfl, rfl⟩

theorem fill_append (nm : List Char) (t1 t2 : Template) :
    fill nm (t1 ++ t2) = fill nm t1 ++ fill nm t2 := by
  induction t1 with
  | nil => simp [fill]
  | cons t ts ih => cases t <;> simp [fill, ih]

theorem mem_matchToks_rawOnly (T : Template) (hT : rawOnly T) (nm : List Char) :
    ∀ s r, r ∈ matchToks T s ↔ s = fill nm T ++ r := by
  induction T with
  | nil => intro s r; simp [matchToks, fill, eq_comm]
  | cons t ts ih =>
    intro s r
    obtain ⟨l, rfl⟩ := hT t (List.mem_cons_self _ _)
    have hts : rawOnly ts := fun t ht => hT t (List.mem_cons_of_mem _ ht)
    simp only [mem_matchToks_raw, ih hts, fill, List.append_assoc]
    constructor
    · rintro ⟨t, rfl, rfl⟩; rfl
    · intro h; exact ⟨_, h, rfl⟩

theorem mem_matchToks_oneVar (T1 T2 : Template) (n : String) (h1 : rawOnly T1)
    (h2 : rawOnly T2) (s r : List Char) :
    r ∈ matchToks (T1 ++ .var n defaultPattern :: T2) s ↔
      ∃ nm, nm ≠ [] ∧ '/' ∉ nm ∧ s = fill nm (T1 ++ .var n defaultPattern :: T2) ++ r := by
  simp only [matchToks_append, List.mem_flatMap, mem_matchToks_var, mem_defaultPattern,
    fill_append, fill, List.append_assoc]
  constructor
  · rintro ⟨a, ha, t, ⟨nm, hne, hns, rfl⟩, ht⟩
    refine ⟨nm, hne, hns, ?_⟩
    rw [(mem_matchToks_rawOnly T1 h1 nm s _).1 ha, (mem_matchToks_rawOnly T2 h2 nm t r).1 ht]
  · rintro ⟨nm, hne, hns, rfl⟩
    exact ⟨_, (mem_matchToks_rawOnly T1 h1 nm _ _).2 rfl, _, ⟨nm, hne, hns, rfl⟩,
      (mem_matchToks_rawOnly T2 h2 nm _ _).2 rfl⟩

theorem mem_versionTemplate (s r : List Char) :
    r ∈ matchToks versionTemplate s ↔
      ∃ ma mi, digitChars ma ∧ digitChars mi ∧ s = '/' :: 'v' :: (ma ++ '.' :: (mi ++ r)) := by
  simp only [versionTemplate, mem_matchToks_raw, mem_matchToks_var, mem_matchToks_nil,
    mem_versionPattern]
  constructor
  · rintro ⟨t, rfl, t2, ⟨ma, mi, hma, hmi, rfl⟩, rfl⟩
    exact ⟨ma, mi, hma, hmi, rfl⟩
  · rintro ⟨ma, mi, hma, hmi, rfl⟩
    exact ⟨_, rfl, _, ⟨ma, mi, hma, hmi, rfl⟩, rfl⟩

/-! ## The routes `main` registers -/

theorem anyMatch_append (a b : List Route) (path : String) :
    Route.anyMatch (a ++ b) path = (Route.anyMatch a path || Route.anyMatch b path) := by
  induction a with
  | nil => simp [Route.anyMatch]
  | cons r rs ih => simp [Route.anyMatch, ih, Bool.or_assoc]

theorem anyMatch_ite (b : Bool) (l : List Route) (path : String) :
    Route.anyMatch (if b = true then l else []) path = (b && Route.anyMatch l path) := by
  cases b <;> simp [Route.anyMatch]

theorem step_eq (b : Bool) (body : Router → Router)
    (hb : ∀ m, body m = ⟨m.tpl, m.routes ++ (body ⟨m.tpl, []⟩).routes⟩) (rs : Routers) :
    (if b = true then forRouters body rs else rs) =
      (⟨rs.1.tpl, rs.1.routes ++ (if b = true then (body ⟨rs.1.tpl, []⟩).routes else [])⟩,
       ⟨rs.2.tpl, rs.2.routes ++ (if b = true then (body ⟨rs.2.tpl, []⟩).routes else [])⟩) := by
  cases b
  · simp
  · simp only [if_true, forRouters]
    rw [← hb rs.1, ← hb rs.2]

theorem registerHandlers_eq (am : BoolMap) (rs : Routers) :
    registerHandlers am rs =
      (⟨rs.1.tpl, rs.1.routes ++ added am rs.1.tpl⟩,
       ⟨rs.2.tpl, rs.2.routes ++ added am rs.2.tpl⟩) := by
  have h1 : ∀ m, containersHandlers m = ⟨m.tpl, m.routes ++ (containersHandlers ⟨m.tpl, []⟩).routes⟩ := by
    intro m; simp [containersHandlers, Router.PathPrefixSubrouter, Router.HandleFunc]
  have h2 : ∀ m, imagesHandlers m = ⟨m.tpl, m.routes ++ (imagesHandlers ⟨m.tpl, []⟩).routes⟩ := by
    intro m; simp [imagesHandlers, Router.PathPrefixSubrouter, Router.HandleFunc]
  have h3 : ∀ m, volumesHandlers m = ⟨m.tpl, m.routes ++ (volumesHandlers ⟨m.tpl, []⟩).routes⟩ := by
    intro m; simp [volumesHandlers, Router.HandleFunc]
  have h4 : ∀ m, networksHandlers m = ⟨m.tpl, m.routes ++ (networksHandlers ⟨m.tpl, []⟩).routes⟩ := by
    intro m; simp [networksHandlers, Router.HandleFunc]
  have h5 : ∀ m, servicesHandlers m = ⟨m.tpl, m.routes ++ (servicesHandlers ⟨m.tpl, []⟩).routes⟩ := by
    intro m; simp [servicesHandlers, Router.HandleFunc]
  have h6 : ∀ m, tasksHandlers m = ⟨m.tpl, m.routes ++ (tasksHandlers ⟨m.tpl, []⟩).routes⟩ := by
    intro m; simp [tasksHandlers, Router.HandleFunc]
  have h7 : ∀ m, eventsHandlers m = ⟨m.tpl, m.routes ++ (eventsHandlers ⟨m.tpl, []⟩).routes⟩ := by
    intro m; simp [eventsHandlers, Router.HandleFunc]
  have h8 : ∀ m, versionHandlers m = ⟨m.tpl, m.routes ++ (versionHandlers ⟨m.tpl, []⟩).routes⟩ := by
    intro m; simp [versionHandlers, Router.HandleFunc]
  have h9 : ∀ m, infoHandlers m = ⟨m.tpl, m.routes ++ (infoHandlers ⟨m.tpl, []⟩).routes⟩ := by
    intro m; simp [infoHandlers, Router.HandleFunc]
  have h10 : ∀ m, pingHandlers m = ⟨m.tpl, m.routes ++ (pingHandlers ⟨m.tpl, []⟩).routes⟩ := by
    intro m; simp [pingHandlers, Router.HandleFunc]
  simp only [registerHandlers]
  rw [step_eq _ _ h1, step_eq _ _ h2, step_eq _ _ h3, step_eq _ _ h4, step_eq _ _ h5,
    step_eq _ _ h6, step_eq _ _ h7, step_eq _ _ h8, step_eq _ _ h9, step_eq _ _ h10]
  simp only [added, List.append_assoc]

/-! ## Routes against templates of the specification -/

theorem render_toList (name : String) (tpl : Spec.PathTemplate) :
    (Spec.render name tpl).toList = renderChars name.toList tpl := by
  induction tpl with
  | nil => rfl
  | cons seg rest ih =>
    cases seg <;>
      simp only [Spec.render, renderChars, String.toList, String.data_append] at ih ⊢ <;>
      rw [ih] <;> rfl

theorem rawOnly_nil : rawOnly [] := fun _ h => absurd h (List.not_mem_nil _)

theorem rawOnly_cons (l : String) (ts : Template) (h : rawOnly ts) : rawOnly (.raw l :: ts) := by
  intro t ht
  rcases List.mem_cons.1 ht with rfl | ht
  · exact ⟨l, rfl⟩
  · exact h t ht

theorem fill_rawOnly (T : Template) (hT : rawOnly T) (nm nm2 : List Char) :
    fill nm T = fill nm2 T := by
  induction T with
  | nil => rfl
  | cons t ts ih =>
    obtain ⟨l, rfl⟩ := hT t (List.mem_cons_self _ _)
    simp only [fill]
    rw [ih (fun t ht => hT t (List.mem_cons_of_mem _ ht))]

theorem pathRegexp_iff (tpl : Template) (path : String) :
    pathRegexp tpl path = true ↔ [] ∈ matchToks tpl path.toList := by
  simp only [pathRegexp, List.any_eq_true, List.isEmpty_iff]
  constructor
  · rintro ⟨x, hx, rfl⟩; exact hx
  · intro h; exact ⟨[], h, rfl⟩

theorem prefixRegexp_iff (tpl : Template) (path : String) :
    prefixRegexp tpl path = true ↔ ∃ r, r ∈ matchToks tpl path.toList := by
  simp only [prefixRegexp, Bool.not_eq_true_eq_eq_false, List.isEmpty_eq_false_iff_exists_mem]

theorem prefixRegexp_of_pathRegexp (t1 t2 : Template) (path : String)
    (h : pathRegexp (t1 ++ t2) path = true) : prefixRegexp t1 path = true := by
  rw [pathRegexp_iff, matchToks_append, List.mem_flatMap] at h
  obtain ⟨a, ha, -⟩ := h
  exact (prefixRegexp_iff _ _).2 ⟨a, ha⟩

theorem leaf_raw {pre : Template} {P : List Char → Prop} (h : PrefixSem pre P) (T : Template)
    (hT : rawOnly T) (tpl : Spec.PathTemplate) (hfill : ∀ nm, fill nm T = renderChars nm tpl)
    (path : String) : pathRegexp (pre ++ T) path = true ↔ inst P path tpl := by
  rw [pathRegexp_iff, matchToks_append, List.mem_flatMap]
  constructor
  · rintro ⟨a, ha, hr⟩
    obtain ⟨x, hx, hs⟩ := (h _ _).1 ha
    have := (mem_matchToks_rawOnly T hT ['x'] a []).1 hr
    refine ⟨x, hx, ['x'], by simp, by simp, ?_⟩
    rw [hs, this, hfill]; simp
  · rintro ⟨x, hx, nm, -, -, hp⟩
    refine ⟨fill nm T, (h _ _).2 ⟨x, hx, by rw [hp, hfill]⟩, ?_⟩
    exact (mem_matchToks_rawOnly T hT nm _ _).2 (by simp)

theorem leaf_var {pre : Template} {P : List Char → Prop} (h : PrefixSem pre P)
    (T1 T2 : Template) (n : String) (h1 : rawOnly T1) (h2 : rawOnly T2)
    (tpl : Spec.PathTemplate)
    (hfill : ∀ nm, fill nm (T1 ++ .var n defaultPattern :: T2) = renderChars nm tpl)
    (path : String) :
    pathRegexp (pre ++ (T1 ++ .var n defaultPattern :: T2)) path = true ↔ inst P path tpl := by
  rw [pathRegexp_iff, matchToks_append, List.mem_flatMap]
  constructor
  · rintro ⟨a, ha, hr⟩
    obtain ⟨x, hx, hs⟩ := (h _ _).1 ha
    obtain ⟨nm, hne, hns, ha2⟩ := (mem_matchToks_oneVar T1 T2 n h1 h2 a []).1 hr
    refine ⟨x, hx, nm, hne, hns, ?_⟩
    rw [hs, ha2, hfill]; simp
  · rintro ⟨x, hx, nm, hne, hns, hp⟩
    refine ⟨fill nm (T1 ++ .var n defaultPattern :: T2),
      (h _ _).2 ⟨x, hx, by rw [hp, hfill]⟩, ?_⟩
    exact (mem_matchToks_oneVar T1 T2 n h1 h2 _ _).2 ⟨nm, hne, hns, by simp⟩

theorem containers_iff {pre : Template} {P : List Char → Prop} (h : PrefixSem pre P)
    (path : String) :
    Route.anyMatch (containersHandlers ⟨pre, []⟩).routes path = true ↔
      inst P path [.text "containers", .text "json"] ∨
      inst P path [.text "containers", .name, .text "json"] := by
  have e1 := leaf_raw h [.raw "/containers", .raw "/json"]
    (rawOnly_cons _ _ (rawOnly_cons _ _ rawOnly_nil)) [.text "containers", .text "json"]
    (fun _ => rfl) path
  have e2 := leaf_var h [.raw "/containers", .raw "/"] [.raw "/json"] "name"
    (rawOnly_cons _ _ (rawOnly_cons _ _ rawOnly_nil)) (rawOnly_cons _ _ rawOnly_nil)
    [.text "containers", .name, .text "json"] (fun _ => rfl) path
  simp only [containersHandlers, Router.PathPrefixSubrouter, Router.HandleFunc, List.nil_append,
    Route.anyMatch, Route.Match, Bool.or_false, Bool.and_eq_true, Bool.or_eq_true,
    List.append_assoc, List.cons_append] at e1 e2 ⊢
  rw [e1, e2]
  constructor
  · exact fun hh => hh.2
  · intro hh
    refine ⟨?_, hh⟩
    rcases hh with hh | hh
    · exact prefixRegexp_of_pathRegexp _ [.raw "/json"] path (by simpa using e1.2 hh)
    · exact prefixRegexp_of_pathRegexp _ [.raw "/", .var "name" defaultPattern, .raw "/json"]
        path (by simpa using e2.2 hh)

theorem images_iff {pre : Template} {P : List Char → Prop} (h : PrefixSem pre P)
    (path : String) :
    Route.anyMatch (imagesHandlers ⟨pre, []⟩).routes path = true ↔
      inst P path [.text "images", .text "json"] ∨
      inst P path [.text "images", .name, .text "json"] ∨
      inst P path [.text "images", .name, .text "history"] := by
  have e1 := leaf_raw h [.raw "/images", .raw "/json"]
    (rawOnly_cons _ _ (rawOnly_cons _ _ rawOnly_nil)) [.text "images", .text "json"]
    (fun _ => rfl) path
  have e2 := leaf_var h [.raw "/images", .raw "/"] [.raw "/json"] "name"
    (rawOnly_cons _ _ (rawOnly_cons _ _ rawOnly_nil)) (rawOnly_cons _ _ rawOnly_nil)
    [.text "images", .name, .text "json"] (fun _ => rfl) path
  have e3 := leaf_var h [.raw "/images", .raw "/"] [.raw "/history"] "name"
    (rawOnly_cons _ _ (rawOnly_cons _ _ rawOnly_nil)) (rawOnly_cons _ _ rawOnly_nil)
    [.text "images", .name, .text "history"] (fun _ => rfl) path
  simp only [imagesHandlers, Router.PathPrefixSubrouter, Router.HandleFunc, List.nil_append,
    Route.anyMatch, Route.Match, Bool.or_false, Bool.and_eq_true, Bool.or_eq_true,
    List.append_assoc, List.cons_append] at e1 e2 e3 ⊢
  rw [e1, e2, e3]
  constructor
  · exact fun hh => hh.2
  · intro hh
    refine ⟨?_, hh⟩
    rcases hh with hh | hh | hh
    · exact prefixRegexp_of_pathRegexp _ [.raw "/json"] path (by simpa using e1.2 hh)
    · exact prefixRegexp_of_pathRegexp _ [.raw "/", .var "name" defaultPattern, .raw "/json"]
        path (by simpa using e2.2 hh)
    · exact prefixRegexp_of_pathRegexp _ [.raw "/", .var "name" defaultPattern, .raw "/history"]
        path (by simpa using e3.2 hh)

theorem volumes_iff {pre : Template} {P : List Char → Prop} (h : PrefixSem pre P)
    (path : String) :
    Route.anyMatch (volumesHandlers ⟨pre, []⟩).routes path = true ↔
      inst P path [.text "volumes"] ∨ inst P path [.text "volumes", .name] := by
  have e1 := leaf_raw h [.raw "/volumes"] (rawOnly_cons _ _ rawOnly_nil) [.text "volumes"]
    (fun _ => rfl) path
  have e2 := leaf_var h [.raw "/volumes/"] [] "name" (rawOnly_cons _ _ rawOnly_nil) rawOnly_nil
    [.text "volumes", .name] (fun _ => rfl) path
  simp only [volumesHandlers, Router.HandleFunc, List.nil_append, Route.anyMatch, Route.Match,
    Bool.or_false, Bool.or_eq_true, List.cons_append] at e1 e2 ⊢
  rw [e1, e2]

theorem networks_iff {pre : Template} {P : List Char → Prop} (h : PrefixSem pre P)
    (path : String) :
    Route.anyMatch (networksHandlers ⟨pre, []⟩).routes path = true ↔
      inst P path [.text "networks"] ∨ inst P path [.text "networks", .name] := by
  have e1 := leaf_raw h [.raw "/networks"] (rawOnly_cons _ _ rawOnly_nil) [.text "networks"]
    (fun _ => rfl) path
  have e2 := leaf_var h [.raw "/networks/"] [] "name" (rawOnly_cons _ _ rawOnly_nil) rawOnly_nil
    [.text "networks", .name] (fun _ => rfl) path
  simp only [networksHandlers, Router.HandleFunc, List.nil_append, Route.anyMatch, Route.Match,
    Bool.or_false, Bool.or_eq_true, List.cons_append] at e1 e2 ⊢
  rw [e1, e2]

theorem services_iff {pre : Template} {P : List Char → Prop} (h : PrefixSem pre P)
    (path : String) :
    Route.anyMatch (servicesHandlers ⟨pre, []⟩).routes path = true ↔
      inst P path [.text "services"] ∨ inst P path [.text "services", .name] := by
  have e1 := leaf_raw h [.raw "/services"] (rawOnly_cons _ _ rawOnly_nil) [.text "services"]
    (fun _ => rfl) path
  have e2 := leaf_var h [.raw "/services/"] [] "name" (rawOnly_cons _ _ rawOnly_nil) rawOnly_nil
    [.text "services", .name] (fun _ => rfl) path
  simp only [servicesHandlers, Router.HandleFunc, List.nil_append, Route.anyMatch, Route.Match,
    Bool.or_false, Bool.or_eq_true, List.cons_append] at e1 e2 ⊢
  rw [e1, e2]

theorem tasks_iff {pre : Template} {P : List Char → Prop} (h : PrefixSem pre P)
    (path : String) :
    Route.anyMatch (tasksHandlers ⟨pre, []⟩).routes path = true ↔
      inst P path [.text "tasks"] ∨ inst P path [.text "tasks", .name] := by
  have e1 := leaf_raw h [.raw "/tasks"] (rawOnly_cons _ _ rawOnly_nil) [.text "tasks"]
    (fun _ => rfl) path
  have e2 := leaf_var h [.raw "/tasks/"] [] "name" (rawOnly_cons _ _ rawOnly_nil) rawOnly_nil
    [.text "tasks", .name] (fun _ => rfl) path
  simp only [tasksHandlers, Router.HandleFunc, List.nil_append, Route.anyMatch, Route.Match,
    Bool.or_false, Bool.or_eq_true, List.cons_append] at e1 e2 ⊢
  rw [e1, e2]

theorem events_iff {pre : Template} {P : List Char → Prop} (h : PrefixSem pre P)
    (path : String) :
    Route.anyMatch (eventsHandlers ⟨pre, []⟩).routes path = true ↔ inst P path [.text "events"] := by
  have e1 := leaf_raw h [.raw "/events"] (rawOnly_cons _ _ rawOnly_nil) [.text "events"]
    (fun _ => rfl) path
  simp only [eventsHandlers, Router.HandleFunc, List.nil_append, Route.anyMatch, Route.Match,
    Bool.or_false] at e1 ⊢
  rw [e1]

theorem version_iff {pre : Template} {P : List Char → Prop} (h : PrefixSem pre P)
    (path : String) :
    Route.anyMatch (versionHandlers ⟨pre, []⟩).routes path = true ↔ inst P path [.text "version"] := by
  have e1 := leaf_raw h [.raw "/version"] (rawOnly_cons _ _ rawOnly_nil) [.text "version"]
    (fun _ => rfl) path
  simp only [versionHandlers, Router.HandleFunc, List.nil_append, Route.anyMatch, Route.Match,
    Bool.or_false] at e1 ⊢
  rw [e1]

theorem info_iff {pre : Template} {P : List Char → Prop} (h : PrefixSem pre P)
    (path : String) :
    Route.anyMatch (infoHandlers ⟨pre, []⟩).routes path = true ↔ inst P path [.text "info"] := by
  have e1 := leaf_raw h [.raw "/info"] (rawOnly_cons _ _ rawOnly_nil) [.text "info"]
    (fun _ => rfl) path
  simp only [infoHandlers, Router.HandleFunc, List.nil_append, Route.anyMatch, Route.Match,
    Bool.or_false] at e1 ⊢
  rw [e1]

theorem ping_iff {pre : Template} {P : List Char → Prop} (h : PrefixSem pre P)
    (path : String) :
    Route.anyMatch (pingHandlers ⟨pre, []⟩).routes path = true ↔ inst P path [.text "_ping"] := by
  have e1 := leaf_raw h [.raw "/_ping"] (rawOnly_cons _ _ rawOnly_nil) [.text "_ping"]
    (fun _ => rfl) path
  simp only [pingHandlers, Router.HandleFunc, List.nil_append, Route.anyMatch, Route.Match,
    Bool.or_false] at e1 ⊢
  rw [e1]

/-- The routes added to a router whose template has the meaning `P` accept exactly the paths
that instantiate, behind a text of `P`, a template of a category the map allows. -/
theorem anyMatch_added {pre : Template} {P : List Char → Prop} (h : PrefixSem pre P)
    (am : BoolMap) (path : String) :
    Route.anyMatch (added am pre) path = true ↔
      ∃ e ∈ Spec.table, am e.1 = true ∧ ∃ tpl ∈ e.2, inst P path tpl := by
  simp only [added, anyMatch_append, anyMatch_ite, Bool.or_eq_true, Bool.and_eq_true,
    containers_iff h, images_iff h, volumes_iff h, networks_iff h, services_iff h, tasks_iff h,
    events_iff h, version_iff h, info_iff h, ping_iff h, Spec.table, List.mem_cons,
    List.mem_singleton, List.not_mem_nil, exists_eq_or_imp, exists_eq_left, or_false,
    List.exists_mem_cons_iff, exists_false]

theorem prefixSem_nil : PrefixSem [] (fun x => x = []) := by
  intro s r
  simp only [matchToks, List.mem_singleton]
  constructor
  · rintro rfl; exact ⟨[], rfl, rfl⟩
  · rintro ⟨x, rfl, rfl⟩; rfl

theorem prefixSem_version : PrefixSem versionTemplate versionText := by
  intro s r
  rw [mem_versionTemplate]
  constructor
  · rintro ⟨ma, mi, hma, hmi, rfl⟩
    exact ⟨_, ⟨ma, mi, hma, hmi, rfl⟩, by simp⟩
  · rintro ⟨x, ⟨ma, mi, hma, hmi, rfl⟩, rfl⟩
    exact ⟨ma, mi, hma, hmi, by simp⟩

theorem allowedMap_iff (allowed : List String) (k : String) :
    allowedMap allowed k = true ↔ k ∈ allowed := by
  have key : ∀ (l : List String) (m : BoolMap),
      l.foldl (fun m s => fun k => if k = s then true else m k) m k = true ↔
        k ∈ l ∨ m k = true := by
    intro l
    induction l with
    | nil => intro m; simp
    | cons a l ih =>
      intro m
      rw [List.foldl_cons, ih]
      by_cases hk : k = a
      · simp [hk]
      · simp [hk]
  simpa [allowedMap] using key allowed (fun _ => false)

theorem string_eq_iff (a b : String) : a = b ↔ a.toList = b.toList := by
  constructor
  · rintro rfl; rfl
  · intro h; exact String.ext h

theorem validName_iff (name : String) :
    Spec.validName name ↔ name.toList ≠ [] ∧ '/' ∉ name.toList := by
  simp only [Spec.validName, ne_eq, string_eq_iff name ""]
  rfl

theorem inst_bare_iff (path : String) (tpl : Spec.PathTemplate) :
    inst (fun x => x = []) path tpl ↔
      ∃ name, Spec.validName name ∧ path = Spec.render name tpl := by
  constructor
  · rintro ⟨x, rfl, nm, hne, hns, hp⟩
    refine ⟨String.mk nm, (validName_iff _).2 ⟨hne, hns⟩, ?_⟩
    rw [string_eq_iff, render_toList, hp]; rfl
  · rintro ⟨name, hv, rfl⟩
    obtain ⟨hne, hns⟩ := (validName_iff _).1 hv
    exact ⟨[], rfl, name.toList, hne, hns, by rw [render_toList]; rfl⟩

theorem digits_iff (d : String) : Spec.digits d ↔ digitChars d.toList := by
  simp only [Spec.digits, digitChars, ne_eq, string_eq_iff d ""]
  rfl

theorem versionText_iff (x : List Char) :
    versionText x ↔ ∃ v, Spec.versionPrefix v ∧ x = '/' :: v.toList := by
  constructor
  · rintro ⟨ma, mi, hma, hmi, rfl⟩
    refine ⟨"v" ++ String.mk ma ++ "." ++ String.mk mi,
      ⟨String.mk ma, String.mk mi, (digits_iff _).2 hma, (digits_iff _).2 hmi, rfl⟩, ?_⟩
    simp [String.toList, String.data_append]
  · rintro ⟨v, ⟨major, minor, hma, hmi, rfl⟩, rfl⟩
    refine ⟨major.toList, minor.toList, (digits_iff _).1 hma, (digits_iff _).1 hmi, ?_⟩
    simp [String.toList, String.data_append]

theorem inst_version_iff (path : String) (tpl : Spec.PathTemplate) :
    inst versionText path tpl ↔
      ∃ v name, Spec.versionPrefix v ∧ Spec.validName name ∧
        path = "/" ++ v ++ Spec.render name tpl := by
  constructor
  · rintro ⟨x, hx, nm, hne, hns, hp⟩
    obtain ⟨v, hv, rfl⟩ := (versionText_iff x).1 hx
    refine ⟨v, String.mk nm, hv, (validName_iff _).2 ⟨hne, hns⟩, ?_⟩
    rw [string_eq_iff, hp]
    have := render_toList (String.mk nm) tpl
    simp only [String.toList, String.data_append] at this ⊢
    rw [this]; rfl
  · rintro ⟨v, name, hv, hn, rfl⟩
    obtain ⟨hne, hns⟩ := (validName_iff _).1 hn
    refine ⟨'/' :: v.toList, (versionText_iff _).2 ⟨v, hv, rfl⟩, name.toList, hne, hns, ?_⟩
    have := render_toList name tpl
    simp only [String.toList, String.data_append] at this ⊢
    rw [this]; rfl

theorem routes_eq (allowed : List String) :
    routes allowed =
      .sub versionTemplate (added (allowedMap allowed) versionTemplate) ::
        added (allowedMap allowed) [] := by
  simp [routes, rootRoutes, registerHandlers_eq, newRouters, NewRouter]

/-- The router `main` builds accepts exactly the paths that instantiate a template of an
allowed category. -/
theorem anyMatch_routes (allowed : List String) (path : String) :
    Route.anyMatch (routes allowed) path = true ↔ Spec.allowedPath allowed path := by
  rw [routes_eq]
  simp only [Route.anyMatch, Route.Match, Bool.or_eq_true, Bool.and_eq_true,
    anyMatch_added prefixSem_version, anyMatch_added prefixSem_nil, allowedMap_iff,
    inst_bare_iff, inst_version_iff, Spec.allowedPath, Spec.instantiates]
  constructor
  · rintro (⟨-, e, he, ha, tpl, ht, hi⟩ | ⟨e, he, ha, tpl, ht, hi⟩)
    · exact ⟨e, he, ha, tpl, ht, Or.inr hi⟩
    · exact ⟨e, he, ha, tpl, ht, Or.inl hi⟩
  · rintro ⟨e, he, ha, tpl, ht, hi | hi⟩
    · exact Or.inr ⟨e, he, ha, tpl, ht, hi⟩
    · refine Or.inl ⟨?_, e, he, ha, tpl, ht, hi⟩
      obtain ⟨x, hx, nm, -, -, hp⟩ := (inst_version_iff path tpl).2 hi
      exact (prefixRegexp_iff _ _).2 ⟨_, (prefixSem_version _ _).2 ⟨x, hx, hp⟩⟩

/-! ## Canonical paths -/

theorem splitSlash_slash (cs : List Char) : splitSlash ('/' :: cs) = [] :: splitSlash cs := by
  simp [splitSlash]

theorem splitSlash_char (c : Char) (cs h : List Char) (t : List (List Char)) (hc : c ≠ '/')
    (hcs : splitSlash cs = h :: t) : splitSlash (c :: cs) = (c :: h) :: t := by
  simp [splitSlash, hc, hcs]

theorem splitSlash_append (e Y h : List Char) (t : List (List Char)) (he : '/' ∉ e)
    (hY : splitSlash Y = h :: t) : splitSlash (e ++ Y) = (e ++ h) :: t := by
  induction e with
  | nil => simpa using hY
  | cons c cs ih =>
    have hc : c ≠ '/' := fun hc => he (by simp [hc])
    have hcs : '/' ∉ cs := fun hm => he (List.mem_cons_of_mem _ hm)
    exact splitSlash_char c (cs ++ Y) (cs ++ h) t hc (ih hcs)

theorem splitSlash_slashJoin (es : List (List Char)) (h : ∀ e ∈ es, '/' ∉ e) :
    splitSlash (slashJoin es) = [] :: es := by
  induction es with
  | nil => rfl
  | cons e es ih =>
    have h1 := ih (fun x hx => h x (List.mem_cons_of_mem _ hx))
    have h2 := splitSlash_append e (slashJoin es) [] es (h e (List.mem_cons_self _ _)) h1
    rw [slashJoin, splitSlash_slash, h2, List.append_nil]

theorem cleanElems_good (es : List (List Char)) (h : ∀ e ∈ es, goodElem e) :
    ∀ out, cleanElems true out es = es.reverse ++ out := by
  induction es with
  | nil => intro out; simp [cleanElems]
  | cons e es ih =>
    intro out
    obtain ⟨h1, -, h3, h4⟩ := h e (List.mem_cons_self _ _)
    simp only [cleanElems, h1, h3, h4, or_self, if_false,
      ih (fun x hx => h x (List.mem_cons_of_mem _ hx)), List.reverse_cons, List.append_assoc,
      List.singleton_append]

theorem joinSlash_slashJoin (e : List Char) (es : List (List Char)) :
    '/' :: joinSlash (e :: es) = slashJoin (e :: es) := by
  induction es generalizing e with
  | nil => simp [joinSlash, slashJoin]
  | cons e2 es ih =>
    have := ih e2
    simp only [joinSlash, slashJoin] at this ⊢
    rw [this]

theorem getLast_slashJoin (e : List Char) (es : List (List Char))
    (h : ∀ x ∈ e :: es, goodElem x) : (slashJoin (e :: es)).getLast? ≠ some '/' := by
  induction es generalizing e with
  | nil =>
    obtain ⟨h1, h2, -, -⟩ := h e (List.mem_cons_self _ _)
    intro hl
    simp only [slashJoin, List.append_nil] at hl
    cases e with
    | nil => exact h1 rfl
    | cons c cs =>
      rw [List.getLast?_cons_cons] at hl
      exact h2 (List.mem_of_getLast?_eq_some hl)
  | cons e2 es ih =>
    have h2 := ih e2 (fun x hx => h x (List.mem_cons_of_mem _ hx))
    intro hl
    apply h2
    have hne : slashJoin (e2 :: es) ≠ [] := by simp [slashJoin]
    have : slashJoin (e :: e2 :: es) = ('/' :: e) ++ slashJoin (e2 :: es) := by
      simp [slashJoin]
    rw [this, List.getLast?_append] at hl
    cases hq : (slashJoin (e2 :: es)).getLast? with
    | none => exact absurd (List.getLast?_eq_none_iff.1 hq) hne
    | some c => rw [hq] at hl; simpa using hl

/-- A rooted path of one or more good elements is canonical. -/
theorem cleanPathChars_slashJoin (e : List Char) (es : List (List Char))
    (h : ∀ x ∈ e :: es, goodElem x) :
    cleanPathChars (slashJoin (e :: es)) = slashJoin (e :: es) := by
  have hsplit := splitSlash_slashJoin (e :: es) (fun x hx => (h x hx).2.1)
  have hlast := getLast_slashJoin e es h
  have hclean : Clean (slashJoin (e :: es)) = slashJoin (e :: es) := by
    have hj := joinSlash_slashJoin e es
    rw [slashJoin] at hsplit hj ⊢
    have hsplit2 : splitSlash (e ++ slashJoin es) = e :: es := by
      rw [splitSlash_slash] at hsplit
      exact List.tail_eq_of_cons_eq hsplit
    have hce := cleanElems_good (e :: es) h []
    simp only [Clean, hsplit, hsplit2, beq_self_eq_true, if_true, cleanElems, true_or,
      hce, List.append_nil, List.reverse_reverse, hj]
  rw [slashJoin] at hclean hlast ⊢
  simp only [cleanPathChars, ne_eq, not_true_eq_false, if_false, hclean, hlast, false_and]

theorem cleanPathChars_head (p : List Char) : (cleanPathChars p).head? = some '/' := by
  cases p with
  | nil => rfl
  | cons c cs =>
    by_cases hc : c = '/'
    · subst hc
      simp only [cleanPathChars, ne_eq, not_true_eq_false, if_false, Clean, beq_self_eq_true,
        if_true]
      split <;> simp
    · simp only [cleanPathChars, ne_eq, hc, not_false_eq_true, if_true, Clean,
        beq_self_eq_true]
      split <;> simp

theorem head_of_canonical (p : String) (h : cleanPath p = p) : p.toList.head? = some '/' := by
  have := cleanPathChars_head p.toList
  have h2 : (cleanPath p).toList = p.toList := by rw [h]
  simp only [cleanPath, String.toList] at h2 this ⊢
  rw [← h2]; exact this

theorem ne_star_of_canonical (p : String) (h : cleanPath p = p) : p ≠ "*" := by
  rintro rfl
  exact absurd h (by decide)

/-- A request reaches the handler exactly when its path is canonical and a route matches. -/
theorem dispatch_handler_iff (rts : List Route) (req : Request) :
    ServeMux.ServeHTTP rts req = .handler ↔
      cleanPath req.URL.Path = req.URL.Path ∧ Route.anyMatch rts req.URL.Path = true := by
  constructor
  · intro h
    simp only [ServeMux.ServeHTTP, Router.ServeHTTP] at h
    split_ifs at h
    simp_all
  · rintro ⟨hc, hm⟩
    have hh := head_of_canonical _ hc
    simp only [String.toList] at hh
    simp [ServeMux.ServeHTTP, Router.ServeHTTP, hc, hm, ne_star_of_canonical _ hc, hh]

theorem dispatch_notFound (rts : List Route) (req : Request)
    (hc : cleanPath req.URL.Path = req.URL.Path)
    (hm : Route.anyMatch rts req.URL.Path = false) :
    ServeMux.ServeHTTP rts req = .notFound := by
  simp [ServeMux.ServeHTTP, Router.ServeHTTP, hc, hm, ne_star_of_canonical _ hc]

theorem dispatch_redirect (rts : List Route) (req : Request)
    (hc : cleanPath req.URL.Path ≠ req.URL.Path) (hm : req.Method ≠ "CONNECT")
    (hs : req.URL.Path ≠ "*") :
    ServeMux.ServeHTTP rts req = .redirect (cleanPath req.URL.Path) := by
  simp [ServeMux.ServeHTTP, hc, hm, hs]

theorem serve_fst (allowed : List String) (upstream : UpStream) (req : Request) :
    (serve allowed upstream req).1 = ServeMux.ServeHTTP (routes allowed) req := by
  simp only [serve]
  split <;> simp_all

theorem serve_calls_of_ne_handler (allowed : List String) (upstream : UpStream) (req : Request)
    (h : ServeMux.ServeHTTP (routes allowed) req ≠ .handler) :
    (serve allowed upstream req).2.calls = [] := by
  simp only [serve]
  split <;> simp_all

theorem serve_handler (allowed : List String) (upstream : UpStream) (req : Request)
    (h : ServeMux.ServeHTTP (routes allowed) req = .handler) :
    (serve allowed upstream req).2 = upstream.Pass req ⟨ResponseWriter.fresh, []⟩ := by
  simp only [serve, h]

theorem serve_notFound (allowed : List String) (upstream : UpStream) (req : Request)
    (h : ServeMux.ServeHTTP (routes allowed) req = .notFound) :
    statusOf (serve allowed upstream req).2 = 404 := by
  simp only [serve, h]
  rfl

theorem serve_redirect (allowed : List String) (upstream : UpStream) (req : Request)
    (location : String) (h : ServeMux.ServeHTTP (routes allowed) req = .redirect location) :
    statusOf (serve allowed upstream req).2 = 301 := by
  simp only [serve, h]
  rfl

theorem renderChars_eq (nm : List Char) (tpl : Spec.PathTemplate) :
    renderChars nm tpl = slashJoin (tpl.map (segChars nm)) := by
  induction tpl with
  | nil => rfl
  | cons seg rest ih => cases seg <;> simp [renderChars, slashJoin, segChars, ih]

theorem table_good : ∀ e ∈ Spec.table, ∀ tpl ∈ e.2,
    tpl ≠ [] ∧ ∀ seg ∈ tpl, goodElem (segChars ['x'] seg) := by
  decide

theorem goodElem_segChars (nm : List Char) (hnm : goodElem nm) (seg : Spec.Seg)
    (h : goodElem (segChars ['x'] seg)) : goodElem (segChars nm seg) := by
  cases seg with
  | text s => exact h
  | name => exact hnm

theorem goodElem_name (name : String) (hv : Spec.validName name) (h1 : name ≠ ".")
    (h2 : name ≠ "..") : goodElem name.toList := by
  obtain ⟨hne, hns⟩ := (validName_iff name).1 hv
  refine ⟨hne, hns, ?_, ?_⟩
  · intro h; exact h1 ((string_eq_iff _ _).2 h)
  · intro h; exact h2 ((string_eq_iff _ _).2 h)

theorem goodElem_version (v : String) (hv : Spec.versionPrefix v) : goodElem v.toList := by
  obtain ⟨major, minor, ⟨-, hma⟩, ⟨-, hmi⟩, rfl⟩ := hv
  have hd : ∀ d : String, (∀ c ∈ d.toList, c.isDigit = true) → '/' ∉ d.toList := by
    intro d hd hm
    exact absurd (hd _ hm) (by decide)
  have e : ("v" ++ major ++ "." ++ minor).toList = 'v' :: (major.toList ++ '.' :: minor.toList) := by
    simp [String.toList, String.data_append]
  rw [e]
  refine ⟨by simp, ?_, by simp, by simp⟩
  simp only [List.mem_cons, List.mem_append, not_or]
  exact ⟨by decide, hd major hma, by decide, hd minor hmi⟩

theorem cleanPath_of_toList (p : String) (h : cleanPathChars p.toList = p.toList) :
    cleanPath p = p := by
  rw [cleanPath, h]
  rfl

/-- An instance of a template of the table is a canonical path, unless the placeholder is
given `.` or `..`. -/
theorem cleanPath_bare (e : String × List Spec.PathTemplate) (he : e ∈ Spec.table)
    (tpl : Spec.PathTemplate) (ht : tpl ∈ e.2) (name : String) (hn : goodElem name.toList) :
    cleanPath (Spec.render name tpl) = Spec.render name tpl := by
  obtain ⟨hne, hg⟩ := table_good e he tpl ht
  apply cleanPath_of_toList
  rw [render_toList, renderChars_eq]
  cases tpl with
  | nil => exact absurd rfl hne
  | cons seg rest =>
    apply cleanPathChars_slashJoin
    intro x hx
    rw [← List.map_cons, List.mem_map] at hx
    obtain ⟨sg, hsg, rfl⟩ := hx
    exact goodElem_segChars _ hn sg (hg sg hsg)

/-- The same behind a version prefix. -/
theorem cleanPath_versioned (e : String × List Spec.PathTemplate) (he : e ∈ Spec.table)
    (tpl : Spec.PathTemplate) (ht : tpl ∈ e.2) (name : String) (hn : goodElem name.toList)
    (v : String) (hv : Spec.versionPrefix v) :
    cleanPath ("/" ++ v ++ Spec.render name tpl) = "/" ++ v ++ Spec.render name tpl := by
  obtain ⟨-, hg⟩ := table_good e he tpl ht
  apply cleanPath_of_toList
  have e1 : ("/" ++ v ++ Spec.render name tpl).toList =
      slashJoin (v.toList :: tpl.map (segChars name.toList)) := by
    have := render_toList name tpl
    simp only [String.toList, String.data_append] at this ⊢
    rw [this, renderChars_eq]; rfl
  rw [e1]
  apply cleanPathChars_slashJoin
  intro x hx
  rcases List.mem_cons.1 hx with rfl | hx
  · exact goodElem_version v hv
  · obtain ⟨sg, hsg, rfl⟩ := List.mem_map.1 hx
    exact goodElem_segChars _ hn sg (hg sg hsg)

/-! ## The handler -/

theorem Pass_not_get (upstream : UpStream) (req : Request) (w : World)
    (h : req.Method ≠ "GET") :
    upstream.Pass req w =
      { w with res := Error w.res "400 Bad request ; only GET allowed." 400 } := by
  simp [UpStream.Pass, h]

theorem Pass_get (upstream : UpStream) (req : Request) (w : World) (h : req.Method = "GET") :
    upstream.Pass req w =
      { (upstream.Get (target req) w).2 with
        res := (upstream.Get (target req) w).2.res.Write (upstream.Get (target req) w).1.1 } := by
  simp [UpStream.Pass, h]

theorem Get_calls (upstream : UpStream) (url : String) (w : World) :
    (upstream.Get url w).2.calls = w.calls ++ [url] := by
  simp only [UpStream.Get]
  split
  · rfl
  · split <;> rfl

theorem Pass_get_calls (upstream : UpStream) (req : Request) (h : req.Method = "GET") :
    (upstream.Pass req ⟨ResponseWriter.fresh, []⟩).calls = [target req] := by
  rw [Pass_get _ _ _ h]
  simp [Get_calls]

theorem anyMatch_false_of_not_allowed (allowed : List String) (path : String)
    (h : ¬ Spec.allowedPath allowed path) : Route.anyMatch (routes allowed) path = false := by
  cases hq : Route.anyMatch (routes allowed) path with
  | false => rfl
  | true => exact absurd ((anyMatch_routes _ _).1 hq) h

/-- A request whose path no route accepts is never forwarded; it gets 404 when its path is
canonical and a redirect when it is not. -/
theorem unmatched_not_forwarded (allowed : List String) (upstream : UpStream) (req : Request)
    (hm : Route.anyMatch (routes allowed) req.URL.Path = false) :
    (serve allowed upstream req).2.calls = [] ∧
    (cleanPath req.URL.Path = req.URL.Path →
      statusOf (serve allowed upstream req).2 = 404) ∧
    (cleanPath req.URL.Path ≠ req.URL.Path → req.Method ≠ "CONNECT" → req.URL.Path ≠ "*" →
      statusOf (serve allowed upstream req).2 = 301) := by
  refine ⟨?_, ?_, ?_⟩
  · apply serve_calls_of_ne_handler
    intro hd
    have := ((dispatch_handler_iff _ _).1 hd).2
    rw [hm] at this
    exact Bool.noConfusion this
  · intro hc
    exact serve_notFound _ _ _ (dispatch_notFound _ _ hc hm)
  · intro hc hmeth hs
    exact serve_redirect _ _ _ _ (dispatch_redirect _ _ hc hmeth hs)

/-! ## Templates of different categories share no path -/

theorem slashJoin_inj (es es2 : List (List Char)) (h1 : ∀ e ∈ es, '/' ∉ e)
    (h2 : ∀ e ∈ es2, '/' ∉ e) (h : slashJoin es = slashJoin es2) : es = es2 := by
  have a := splitSlash_slashJoin es h1
  have b := splitSlash_slashJoin es2 h2
  rw [h, b] at a
  exact (List.tail_eq_of_cons_eq a).symm

theorem table_heads : ∀ e ∈ Spec.table, ∀ tpl ∈ e.2, ∀ e2 ∈ Spec.table, ∀ tpl2 ∈ e2.2,
    headText tpl = headText tpl2 → e.1 = e2.1 := by
  decide

theorem table_headOk : ∀ e ∈ Spec.table, ∀ tpl ∈ e.2, headOk tpl = true := by
  decide

theorem headOk_cases (tpl : Spec.PathTemplate) (h : headOk tpl = true) :
    ∃ s rest, tpl = .text s :: rest ∧ looksVersioned s.toList = false := by
  match tpl, h with
  | .text s :: rest, h => exact ⟨s, rest, rfl, by simpa [headOk] using h⟩

theorem looksVersioned_version (v : String) (hv : Spec.versionPrefix v) :
    looksVersioned v.toList = true := by
  obtain ⟨major, minor, ⟨hne, hma⟩, -, rfl⟩ := hv
  have e : ("v" ++ major ++ "." ++ minor).toList = 'v' :: (major.toList ++ '.' :: minor.toList) := by
    simp [String.toList, String.data_append]
  rw [e]
  cases hm : major.toList with
  | nil => exact absurd ((string_eq_iff major "").2 hm) hne
  | cons d ds =>
    have := hma d (by rw [hm]; exact List.mem_cons_self _ _)
    simpa [looksVersioned] using this

theorem noSlash_segChars (nm : List Char) (hnm : '/' ∉ nm) (seg : Spec.Seg)
    (h : goodElem (segChars ['x'] seg)) : '/' ∉ segChars nm seg := by
  cases seg with
  | text s => exact h.2.1
  | name => exact hnm

/-- The elements of a path that instantiates a template of the table. -/
theorem instantiates_elems (e : String × List Spec.PathTemplate) (he : e ∈ Spec.table)
    (tpl : Spec.PathTemplate) (ht : tpl ∈ e.2) (path : String)
    (h : Spec.instantiates tpl path) :
    ∃ es, (∀ x ∈ es, '/' ∉ x) ∧ path.toList = slashJoin es ∧
      ((∃ nm, es = tpl.map (segChars nm)) ∨
       (∃ v nm, Spec.versionPrefix v ∧ es = v.toList :: tpl.map (segChars nm))) := by
  obtain ⟨-, hg⟩ := table_good e he tpl ht
  rcases h with ⟨name, hn, rfl⟩ | ⟨v, name, hv, hn, rfl⟩
  · obtain ⟨-, hns⟩ := (validName_iff _).1 hn
    refine ⟨tpl.map (segChars name.toList), ?_, ?_, Or.inl ⟨_, rfl⟩⟩
    · intro x hx
      obtain ⟨sg, hsg, rfl⟩ := List.mem_map.1 hx
      exact noSlash_segChars _ hns sg (hg sg hsg)
    · rw [render_toList, renderChars_eq]
  · obtain ⟨-, hns⟩ := (validName_iff _).1 hn
    refine ⟨v.toList :: tpl.map (segChars name.toList), ?_, ?_, Or.inr ⟨v, _, hv, rfl⟩⟩
    · intro x hx
      rcases List.mem_cons.1 hx with rfl | hx
      · exact (goodElem_version v hv).2.1
      · obtain ⟨sg, hsg, rfl⟩ := List.mem_map.1 hx
        exact noSlash_segChars _ hns sg (hg sg hsg)
    · have := render_toList name tpl
      simp only [String.toList, String.data_append] at this ⊢
      rw [this, renderChars_eq]; rfl

theorem headText_of_map_eq (tpl tpl2 : Spec.PathTemplate) (nm nm2 : List Char)
    (h1 : headOk tpl = true) (h2 : headOk tpl2 = true)
    (h : tpl.map (segChars nm) = tpl2.map (segChars nm2)) : headText tpl = headText tpl2 := by
  obtain ⟨s, rest, rfl, -⟩ := headOk_cases tpl h1
  obtain ⟨s2, rest2, rfl, -⟩ := headOk_cases tpl2 h2
  simp only [List.map_cons, segChars, List.cons.injEq] at h
  simp only [headText, h.1]

theorem not_version_head (tpl : Spec.PathTemplate) (h1 : headOk tpl = true) (nm : List Char)
    (v : String) (hv : Spec.versionPrefix v) (rest : List (List Char))
    (h : tpl.map (segChars nm) = v.toList :: rest) : False := by
  obtain ⟨s, r, rfl, hs⟩ := headOk_cases tpl h1
  simp only [List.map_cons, segChars, List.cons.injEq] at h
  rw [h.1, looksVersioned_version v hv] at hs
  exact Bool.noConfusion hs

/-- A path instantiates templates of one category only. -/
theorem instantiates_category (e e2 : String × List Spec.PathTemplate)
    (he : e ∈ Spec.table) (he2 : e2 ∈ Spec.table) (tpl tpl2 : Spec.PathTemplate)
    (ht : tpl ∈ e.2) (ht2 : tpl2 ∈ e2.2) (path : String)
    (h : Spec.instantiates tpl path) (h2 : Spec.instantiates tpl2 path) : e.1 = e2.1 := by
  obtain ⟨es, hs, hp, hes⟩ := instantiates_elems e he tpl ht path h
  obtain ⟨es2, hs2, hp2, hes2⟩ := instantiates_elems e2 he2 tpl2 ht2 path h2
  have heq : es = es2 := slashJoin_inj es es2 hs hs2 (hp.symm.trans hp2)
  have ok := table_headOk e he tpl ht
  have ok2 := table_headOk e2 he2 tpl2 ht2
  apply table_heads e he tpl ht e2 he2 tpl2 ht2
  rcases hes with ⟨nm, rfl⟩ | ⟨v, nm, hv, rfl⟩ <;> rcases hes2 with ⟨nm2, rfl⟩ | ⟨v2, nm2, hv2, rfl⟩
  · exact headText_of_map_eq _ _ _ _ ok ok2 heq
  · exact (not_version_head tpl ok nm v2 hv2 _ heq).elim
  · exact (not_version_head tpl2 ok2 nm2 v hv _ heq.symm).elim
  · exact headText_of_map_eq _ _ _ _ ok ok2 (List.tail_eq_of_cons_eq heq)

theorem not_allowedPath_of_category (allowed : List String)
    (e : String × List Spec.PathTemplate) (he : e ∈ Spec.table) (hna : e.1 ∉ allowed)
    (tpl : Spec.PathTemplate) (ht : tpl ∈ e.2) (path : String)
    (h : Spec.instantiates tpl path) : ¬ Spec.allowedPath allowed path := by
  rintro ⟨e2, he2, ha2, tpl2, ht2, h2⟩
  rw [instantiates_category e e2 he he2 tpl tpl2 ht ht2 path h h2] at hna
  exact hna ha2

/-! ## C1: default deny -/

/-- C1, as stated, fails: with the Allowed Set `{"ping"}` the path `//x` instantiates no
template, yet `GET //x` is answered with a 301 redirect to `/x`, not with 404. -/
theorem C1_counterexample :
    ¬ Spec.allowedPath ["ping"] "//x" ∧
    (serve ["ping"] deadUpstream ⟨"GET", ⟨"//x", "", false⟩⟩).1 = .redirect "/x" ∧
    statusOf (serve ["ping"] deadUpstream ⟨"GET", ⟨"//x", "", false⟩⟩).2 = 301 ∧
    statusOf (serve ["ping"] deadUpstream ⟨"GET", ⟨"//x", "", false⟩⟩).2 ≠ 404 :=
  ⟨(anyMatch_routes ["ping"] "//x").not.1 (by decide), by decide, by decide, by decide⟩

/-- C1 (amended): for every Allowed Set, method and path, if the path instantiates no
template (bare or version-prefixed) of an allowed category, the upstream GET is never
invoked; the answer is 404 when the path is canonical, and a 301 redirect when it is not
(for a method other than CONNECT and a target other than `*`).  In particular this holds for
every path that instantiates a template of a category that is not allowed, whatever other
categories are. -/
theorem C1_default_deny (allowed : List String) (upstream : UpStream) (req : Request) :
    (¬ Spec.allowedPath allowed req.URL.Path →
      (serve allowed upstream req).2.calls = [] ∧
      (cleanPath req.URL.Path = req.URL.Path →
        statusOf (serve allowed upstream req).2 = 404) ∧
      (cleanPath req.URL.Path ≠ req.URL.Path → req.Method ≠ "CONNECT" →
        req.URL.Path ≠ "*" → statusOf (serve allowed upstream req).2 = 301)) ∧
    (∀ e ∈ Spec.table, e.1 ∉ allowed → ∀ tpl ∈ e.2, Spec.instantiates tpl req.URL.Path →
      (serve allowed upstream req).2.calls = [] ∧
      (cleanPath req.URL.Path = req.URL.Path →
        statusOf (serve allowed upstream req).2 = 404)) := by
  refine ⟨?_, ?_⟩
  · intro h
    exact unmatched_not_forwarded allowed upstream req
      (anyMatch_false_of_not_allowed allowed _ h)
  · intro e he hna tpl ht hi
    have hu := unmatched_not_forwarded allowed upstream req
      (anyMatch_false_of_not_allowed allowed _
        (not_allowedPath_of_category allowed e he hna tpl ht _ hi))
    exact ⟨hu.1, hu.2.1⟩

/-- C1, witness: with the Allowed Set `{"ping"}`, `GET /containers/json` and a `POST` to the
unregistered path `/nope` are both answered 404 without any upstream GET, and so is
`GET /v1.24/images/alpine/history` with `containers` and `ping` allowed. -/
theorem C1_default_deny_witness :
    ¬ Spec.allowedPath ["ping"] "/containers/json" ∧
    (serve ["ping"] jsonUpstream ⟨"GET", ⟨"/containers/json", "", false⟩⟩).2.calls = [] ∧
    statusOf (serve ["ping"] jsonUpstream ⟨"GET", ⟨"/containers/json", "", false⟩⟩).2 = 404 ∧
    statusOf (serve ["ping"] jsonUpstream ⟨"POST", ⟨"/nope", "", false⟩⟩).2 = 404 ∧
    (serve ["containers", "ping"] jsonUpstream
      ⟨"GET", ⟨"/v1.24/images/alpine/history", "", false⟩⟩).2.calls = [] ∧
    statusOf (serve ["containers", "ping"] jsonUpstream
      ⟨"GET", ⟨"/v1.24/images/alpine/history", "", false⟩⟩).2 = 404 :=
  have h1 : ¬ Spec.allowedPath ["ping"] "/containers/json" :=
    (anyMatch_routes ["ping"] "/containers/json").not.1 (by decide)
  have h2 : ¬ Spec.allowedPath ["ping"] "/nope" :=
    (anyMatch_routes ["ping"] "/nope").not.1 (by decide)
  have h3 := (C1_default_deny ["containers", "ping"] jsonUpstream
    ⟨"GET", ⟨"/v1.24/images/alpine/history", "", false⟩⟩).2
    ("images", [[.text "images", .text "json"], [.text "images", .name, .text "json"],
      [.text "images", .name, .text "history"]]) (by decide) (by decide)
    [.text "images", .name, .text "history"] (by decide)
    (Or.inr ⟨"v1.24", "alpine",
      ⟨"1", "24", ⟨by decide, by decide⟩, ⟨by decide, by decide⟩, by decide⟩,
      ⟨by decide, by decide⟩, by decide⟩)
  ⟨h1,
    ((C1_default_deny ["ping"] jsonUpstream ⟨"GET", ⟨"/containers/json", "", false⟩⟩).1 h1).1,
    ((C1_default_deny ["ping"] jsonUpstream ⟨"GET", ⟨"/containers/json", "", false⟩⟩).1 h1).2.1
      (by decide),
    ((C1_default_deny ["ping"] jsonUpstream ⟨"POST", ⟨"/nope", "", false⟩⟩).1 h2).2.1
      (by decide),
    h3.1, h3.2 (by decide)⟩

/-! ## C2: reachability -/

/-- C2, as stated, fails: `..` is a non-empty segment without a slash, `containers` is
allowed, but `GET /containers/../json` is not dispatched to the handler: it is redirected to
`/json` and nothing is forwarded. -/
theorem C2_counterexample :
    ("containers", [[Spec.Seg.text "containers", .text "json"],
      [.text "containers", .name, .text "json"]]) ∈ Spec.table ∧
    Spec.validName ".." ∧
    Spec.render ".." [.text "containers", .name, .text "json"] = "/containers/../json" ∧
    (serve ["containers"] jsonUpstream ⟨"GET", ⟨"/containers/../json", "", false⟩⟩).1 =
      .redirect "/json" ∧
    (serve ["containers"] jsonUpstream ⟨"GET", ⟨"/containers/../json", "", false⟩⟩).2.calls = [] :=
  ⟨by decide, ⟨by decide, by decide⟩, by decide, by decide, by decide⟩

/-- C2 (amended): for every category of the table that is in the Allowed Set, every template
of it, every non-empty slash-free value of `{name}` other than `.` and `..`, and every version
prefix `v<digits>.<digits>`, a GET for the bare path and a GET for `/` + prefix + bare path
are both dispatched to the handler and forwarded to the upstream (with any query). -/
theorem C2_reachable (allowed : List String) (upstream : UpStream)
    (e : String × List Spec.PathTemplate) (he : e ∈ Spec.table) (ha : e.1 ∈ allowed)
    (tpl : Spec.PathTemplate) (ht : tpl ∈ e.2)
    (name : String) (hn : Spec.validName name) (h1 : name ≠ ".") (h2 : name ≠ "..")
    (v : String) (hv : Spec.versionPrefix v) (q : String) (fq : Bool) :
    (serve allowed upstream ⟨"GET", ⟨Spec.render name tpl, q, fq⟩⟩).1 = .handler ∧
    (serve allowed upstream ⟨"GET", ⟨Spec.render name tpl, q, fq⟩⟩).2.calls =
      [target ⟨"GET", ⟨Spec.render name tpl, q, fq⟩⟩] ∧
    (serve allowed upstream ⟨"GET", ⟨"/" ++ v ++ Spec.render name tpl, q, fq⟩⟩).1 = .handler ∧
    (serve allowed upstream ⟨"GET", ⟨"/" ++ v ++ Spec.render name tpl, q, fq⟩⟩).2.calls =
      [target ⟨"GET", ⟨"/" ++ v ++ Spec.render name tpl, q, fq⟩⟩] := by
  have hg := goodElem_name name hn h1 h2
  have hb : ServeMux.ServeHTTP (routes allowed) ⟨"GET", ⟨Spec.render name tpl, q, fq⟩⟩ =
      .handler :=
    (dispatch_handler_iff _ _).2 ⟨cleanPath_bare e he tpl ht name hg,
      (anyMatch_routes _ _).2 ⟨e, he, ha, tpl, ht, Or.inl ⟨name, hn, rfl⟩⟩⟩
  have hvv : ServeMux.ServeHTTP (routes allowed)
      ⟨"GET", ⟨"/" ++ v ++ Spec.render name tpl, q, fq⟩⟩ = .handler :=
    (dispatch_handler_iff _ _).2 ⟨cleanPath_versioned e he tpl ht name hg v hv,
      (anyMatch_routes _ _).2 ⟨e, he, ha, tpl, ht, Or.inr ⟨v, name, hv, hn, rfl⟩⟩⟩
  refine ⟨?_, ?_, ?_, ?_⟩
  · rw [serve_fst, hb]
  · rw [serve_handler _ _ _ hb, Pass_get_calls _ _ rfl]
  · rw [serve_fst, hvv]
  · rw [serve_handler _ _ _ hvv, Pass_get_calls _ _ rfl]

/-- C2, witness: with the Allowed Set `{"ping"}`, `GET /_ping` and `GET /v1.24/_ping` are both
forwarded. -/
theorem C2_reachable_witness :
    (serve ["ping"] jsonUpstream ⟨"GET", ⟨"/_ping", "", false⟩⟩).1 = .handler ∧
    (serve ["ping"] jsonUpstream ⟨"GET", ⟨"/_ping", "", false⟩⟩).2.calls =
      ["http://docker/_ping"] ∧
    (serve ["ping"] jsonUpstream ⟨"GET", ⟨"/v1.24/_ping", "", false⟩⟩).1 = .handler ∧
    (serve ["ping"] jsonUpstream ⟨"GET", ⟨"/v1.24/_ping", "", false⟩⟩).2.calls =
      ["http://docker/v1.24/_ping"] :=
  C2_reachable ["ping"] jsonUpstream ("ping", [[.text "_ping"]]) (by decide) (by decide)
    [.text "_ping"] (by decide) "x" ⟨by decide, by decide⟩ (by decide) (by decide)
    "v1.24" ⟨"1", "24", ⟨by decide, by decide⟩, ⟨by decide, by decide⟩, by decide⟩ "" false

/-! ## C3: the method gate -/

/-- C3: every request that reaches the handler with a method other than `GET` is answered
with status 400, no upstream GET is issued, and the response does not depend on the upstream
at all; the same holds through the server for every request dispatched to the handler. -/
theorem C3_method_gate (upstream : UpStream) (req : Request) (h : req.Method ≠ "GET") :
    (upstream.Pass req ⟨ResponseWriter.fresh, []⟩).res.status = some 400 ∧
    (upstream.Pass req ⟨ResponseWriter.fresh, []⟩).calls = [] ∧
    (∀ other : UpStream, other.Pass req ⟨ResponseWriter.fresh, []⟩ =
      upstream.Pass req ⟨ResponseWriter.fresh, []⟩) ∧
    (∀ allowed, ServeMux.ServeHTTP (routes allowed) req = .handler →
      statusOf (serve allowed upstream req).2 = 400 ∧
      (serve allowed upstream req).2.calls = []) := by
  refine ⟨?_, ?_, ?_, ?_⟩
  · rw [Pass_not_get _ _ _ h]; rfl
  · rw [Pass_not_get _ _ _ h]
  · intro other; rw [Pass_not_get _ _ _ h, Pass_not_get _ _ _ h]
  · intro allowed hd
    rw [serve_handler _ _ _ hd, Pass_not_get _ _ _ h]
    exact ⟨rfl, rfl⟩

/-- C3, witness: with `ping` allowed, `POST /_ping` reaches the handler and gets 400 without
any upstream GET. -/
theorem C3_method_gate_witness :
    (serve ["ping"] jsonUpstream ⟨"POST", ⟨"/_ping", "", false⟩⟩).1 = .handler ∧
    statusOf (serve ["ping"] jsonUpstream ⟨"POST", ⟨"/_ping", "", false⟩⟩).2 = 400 ∧
    (serve ["ping"] jsonUpstream ⟨"POST", ⟨"/_ping", "", false⟩⟩).2.calls = [] :=
  ⟨by decide,
    ((C3_method_gate jsonUpstream ⟨"POST", ⟨"/_ping", "", false⟩⟩ (by decide)).2.2.2
      ["ping"] (by decide)).1,
    ((C3_method_gate jsonUpstream ⟨"POST", ⟨"/_ping", "", false⟩⟩ (by decide)).2.2.2
      ["ping"] (by decide)).2⟩

/-! ## C4: the forwarded target -/

theorem length_pos_iff (s : String) : s.length > 0 ↔ s ≠ "" := by
  rw [ne_eq, string_eq_iff]
  simp only [String.length, String.toList]
  exact List.length_pos

theorem target_eq (req : Request) :
    target req =
      if req.URL.RawQuery = "" then "http://docker" ++ req.URL.Path
      else "http://docker" ++ req.URL.Path ++ "?" ++ req.URL.RawQuery := by
  by_cases h : req.URL.RawQuery = ""
  · have : ¬ req.URL.RawQuery.length > 0 := fun hl => (length_pos_iff _).1 hl h
    simp only [target, this, h, if_false, if_true]
    exact String.ext (by simp [String.data_append])
  · have : req.URL.RawQuery.length > 0 := (length_pos_iff _).2 h
    simp only [target, this, h, if_false, if_true]
    exact String.ext (by simp [String.data_append])

/-- C4, as stated, fails: `GET /_ping?` carries a query string (an empty one), so the claim
puts `http://docker/_ping?` in the target, but the handler forwards `http://docker/_ping`,
exactly as for `GET /_ping`. -/
theorem C4_counterexample :
    Spec.hasQuery ⟨"/_ping", "", true⟩ = true ∧
    Spec.expectedTarget ⟨"GET", ⟨"/_ping", "", true⟩⟩ = "http://docker/_ping?" ∧
    target ⟨"GET", ⟨"/_ping", "", true⟩⟩ = "http://docker/_ping" ∧
    target ⟨"GET", ⟨"/_ping", "", true⟩⟩ ≠ Spec.expectedTarget ⟨"GET", ⟨"/_ping", "", true⟩⟩ ∧
    (serve ["ping"] jsonUpstream ⟨"GET", ⟨"/_ping", "", true⟩⟩).2.calls =
      ["http://docker/_ping"] ∧
    target ⟨"GET", ⟨"/_ping", "", true⟩⟩ = target ⟨"GET", ⟨"/_ping", "", false⟩⟩ :=
  ⟨by decide, by decide, by decide, by decide, by decide, by decide⟩

/-- C4 (amended): for every GET that reaches the handler, the one target handed to the
upstream GET is `http://docker` ++ path when the raw query is empty (no query string, or a
bare `?`), and `http://docker` ++ path ++ `?` ++ raw query, the query copied unchanged, when
it is not empty; this is the target the specification words unless the request ends in a
bare `?`. -/
theorem C4_target (upstream : UpStream) (req : Request) (h : req.Method = "GET") :
    (upstream.Pass req ⟨ResponseWriter.fresh, []⟩).calls = [target req] ∧
    (req.URL.RawQuery = "" → target req = "http://docker" ++ req.URL.Path) ∧
    (req.URL.RawQuery ≠ "" →
      target req = "http://docker" ++ req.URL.Path ++ "?" ++ req.URL.RawQuery) ∧
    ((req.URL.RawQuery ≠ "" ∨ req.URL.ForceQuery = false) →
      target req = Spec.expectedTarget req) := by
  refine ⟨Pass_get_calls _ _ h, ?_, ?_, ?_⟩
  · intro hq; rw [target_eq, if_pos hq]
  · intro hq; rw [target_eq, if_neg hq]
  · intro hq
    rw [target_eq]
    by_cases he : req.URL.RawQuery = ""
    · rcases hq with hq | hq
      · exact absurd he hq
      · simp [Spec.expectedTarget, Spec.hasQuery, he, hq]
    · simp [Spec.expectedTarget, Spec.hasQuery, he]

/-- C4, witness: `GET /containers/json?all=1` is forwarded as
`http://docker/containers/json?all=1`. -/
theorem C4_target_witness :
    (jsonUpstream.Pass ⟨"GET", ⟨"/containers/json", "all=1", false⟩⟩
      ⟨ResponseWriter.fresh, []⟩).calls = ["http://docker/containers/json?all=1"] ∧
    target ⟨"GET", ⟨"/containers/json", "all=1", false⟩⟩ =
      Spec.expectedTarget ⟨"GET", ⟨"/containers/json", "all=1", false⟩⟩ :=
  ⟨(C4_target jsonUpstream ⟨"GET", ⟨"/containers/json", "all=1", false⟩⟩ rfl).1,
    (C4_target jsonUpstream ⟨"GET", ⟨"/containers/json", "all=1", false⟩⟩ rfl).2.2.2
      (Or.inr rfl)⟩

/-! ## C5: the forwarded path -/

theorem splitChars (p q : List Char) (hp : '?' ∉ p) :
    (p ++ '?' :: q).takeWhile (· ≠ '?') = p ∧
      ((p ++ '?' :: q).dropWhile (· ≠ '?')).drop 1 = q := by
  have hall : ∀ a ∈ p, (decide (a ≠ '?')) = true := by
    intro a ha
    simp only [ne_eq, decide_not, Bool.not_eq_true', decide_eq_false_iff_not]
    rintro rfl
    exact hp ha
  constructor
  · rw [List.takeWhile_append_of_pos hall]
    simp
  · rw [List.dropWhile_append_of_pos hall]
    simp

theorem splitChars_nil (p : List Char) (hp : '?' ∉ p) :
    p.takeWhile (· ≠ '?') = p ∧ (p.dropWhile (· ≠ '?')).drop 1 = [] := by
  have hall : ∀ a ∈ p, (decide (a ≠ '?')) = true := by
    intro a ha
    simp only [ne_eq, decide_not, Bool.not_eq_true', decide_eq_false_iff_not]
    rintro rfl
    exact hp ha
  have h1 : (p ++ []).takeWhile (· ≠ '?') = p ++ ([] : List Char).takeWhile (· ≠ '?') :=
    List.takeWhile_append_of_pos hall
  have h2 : (p ++ []).dropWhile (· ≠ '?') = ([] : List Char).dropWhile (· ≠ '?') :=
    List.dropWhile_append_of_pos hall
  simp only [List.append_nil, List.takeWhile_nil, List.dropWhile_nil] at h1 h2
  exact ⟨h1, by rw [h2]; rfl⟩

/-- C5, as stated, fails: with `volumes` allowed, the request `GET /volumes/a%3Fb` (decoded
path `/volumes/a?b`, no query) matches `/volumes/{name}` and is forwarded as
`http://docker/volumes/a?b`; splitting that target at its first `?` yields the path
`/volumes/a` and the query `b`, not the path the router matched and the empty query. -/
theorem C5_counterexample :
    (serve ["volumes"] jsonUpstream ⟨"GET", ⟨"/volumes/a?b", "", false⟩⟩).1 = .handler ∧
    (serve ["volumes"] jsonUpstream ⟨"GET", ⟨"/volumes/a?b", "", false⟩⟩).2.calls =
      ["http://docker/volumes/a?b"] ∧
    Spec.splitTarget (target ⟨"GET", ⟨"/volumes/a?b", "", false⟩⟩) = ("/volumes/a", "b") ∧
    Spec.splitTarget (target ⟨"GET", ⟨"/volumes/a?b", "", false⟩⟩) ≠ ("/volumes/a?b", "") :=
  ⟨by decide, by decide, by decide, by decide⟩

/-- C5 (amended): for every GET that reaches the handler (also through the server, on every
registered path) with a path that contains no `?`, the one target handed to the upstream GET,
split after the marker `http://docker` at its first `?`, yields exactly the request path as
the path part and exactly the raw query as the query part (empty when the request had none).
The statement is about the target string only: the path is concatenated as decoded, without
escaping, and nothing is asserted about how the HTTP client and the upstream read that
string, for instance when the path holds a `#` or a `%`. -/
theorem C5_round_trip (upstream : UpStream) (req : Request) (hm : req.Method = "GET")
    (hp : '?' ∉ req.URL.Path.toList) :
    (upstream.Pass req ⟨ResponseWriter.fresh, []⟩).calls = [target req] ∧
    Spec.splitTarget (target req) = (req.URL.Path, req.URL.RawQuery) ∧
    (∀ allowed, ServeMux.ServeHTTP (routes allowed) req = .handler →
      (serve allowed upstream req).2.calls = [target req]) := by
  refine ⟨Pass_get_calls _ _ hm, ?_, fun allowed hd => by
    rw [serve_handler _ _ _ hd, Pass_get_calls _ _ hm]⟩
  have hdrop : ∀ t : List Char,
      ("http://docker".toList ++ t).drop "http://docker".length = t := by
    intro t; rfl
  by_cases hq : req.URL.RawQuery = ""
  · have ht : (target req).toList = "http://docker".toList ++ req.URL.Path.toList := by
      rw [target_eq, if_pos hq]
      simp [String.toList, String.data_append]
    obtain ⟨h1, h2⟩ := splitChars_nil _ hp
    simp only [Spec.splitTarget, ht, hdrop, h1, h2, hq]
    rfl
  · have ht : (target req).toList =
        "http://docker".toList ++ (req.URL.Path.toList ++ '?' :: req.URL.RawQuery.toList) := by
      rw [target_eq, if_neg hq]
      simp [String.toList, String.data_append]
    obtain ⟨h1, h2⟩ := splitChars _ req.URL.RawQuery.toList hp
    simp only [Spec.splitTarget, ht, hdrop, h1, h2]
    rfl

/-- C5, witness: with `containers` allowed, `GET /v1.24/containers/abc/json?size=1` is
forwarded in one upstream GET whose target splits into the same path and the same query. -/
theorem C5_round_trip_witness :
    (jsonUpstream.Pass ⟨"GET", ⟨"/v1.24/containers/abc/json", "size=1", false⟩⟩
      ⟨ResponseWriter.fresh, []⟩).calls = ["http://docker/v1.24/containers/abc/json?size=1"] ∧
    Spec.splitTarget (target ⟨"GET", ⟨"/v1.24/containers/abc/json", "size=1", false⟩⟩) =
      ("/v1.24/containers/abc/json", "size=1") ∧
    (serve ["containers"] jsonUpstream
      ⟨"GET", ⟨"/v1.24/containers/abc/json", "size=1", false⟩⟩).2.calls =
      ["http://docker/v1.24/containers/abc/json?size=1"] :=
  ⟨(C5_round_trip jsonUpstream ⟨"GET", ⟨"/v1.24/containers/abc/json", "size=1", false⟩⟩ rfl
      (by decide)).1,
    (C5_round_trip jsonUpstream ⟨"GET", ⟨"/v1.24/containers/abc/json", "size=1", false⟩⟩ rfl
      (by decide)).2.1,
    (C5_round_trip jsonUpstream ⟨"GET", ⟨"/v1.24/containers/abc/json", "size=1", false⟩⟩ rfl
      (by decide)).2.2 ["containers"] (by decide)⟩

/-! ## C6: content type -/

/-- C6: when the upstream GET returns a response, a non-empty `Content-type` of it becomes
the `Content-type` of the outbound response and no other header entry changes; without one
(or with an empty one) the outbound headers stay exactly as they were.  Status and body of
the outbound response are not touched by the forwarding operation. -/
theorem C6_content_type (r : UpStream) (url : String) (w : World) (resp : Response)
    (h : r.handle url = .ok resp) :
    (resp.Header.Get "Content-type" ≠ "" →
      (r.Get url w).2.res.header.Get "Content-type" = resp.Header.Get "Content-type" ∧
      ∀ k, k ≠ "Content-Type" → (r.Get url w).2.res.header k = w.res.header k) ∧
    (resp.Header.Get "Content-type" = "" → (r.Get url w).2.res.header = w.res.header) ∧
    (r.Get url w).2.res.status = w.res.status ∧
    (r.Get url w).2.res.body = w.res.body := by
  have hk : canonicalMIMEHeaderKey "Content-type" = "Content-Type" := by decide
  refine ⟨?_, ?_, ?_, ?_⟩
  · intro hct
    simp only [UpStream.Get, h, hct, ne_eq, not_false_eq_true, if_true]
    refine ⟨?_, ?_⟩
    · simp [Header.Get, Header.Set]
    · intro k hkne
      simp [Header.Set, hk, hkne]
  · intro hct
    simp only [UpStream.Get, h, hct, ne_eq, not_true_eq_false, if_false]
  · simp only [UpStream.Get, h]
    split <;> rfl
  · simp only [UpStream.Get, h]
    split <;> rfl

/-- C6, witness: the `application/json` of the upstream response is copied, and an unrelated
header entry of the outbound response is left alone. -/
theorem C6_content_type_witness :
    (jsonUpstream.Get "http://docker/info" ⟨ResponseWriter.fresh, []⟩).2.res.header.Get
      "Content-type" = "application/json" ∧
    (jsonUpstream.Get "http://docker/info" ⟨ResponseWriter.fresh, []⟩).2.res.header "Date" =
      ResponseWriter.fresh.header "Date" :=
  ⟨((C6_content_type jsonUpstream "http://docker/info" ⟨ResponseWriter.fresh, []⟩
      ⟨404, Header.empty.Set "Content-Type" "application/json", ([123, 125], none)⟩ rfl).1
      (by decide)).1,
    ((C6_content_type jsonUpstream "http://docker/info" ⟨ResponseWriter.fresh, []⟩
      ⟨404, Header.empty.Set "Content-Type" "application/json", ([123, 125], none)⟩ rfl).1
      (by decide)).2 "Date" (by decide)⟩

/-! ## C7: successful relay -/

theorem Get_error (r : UpStream) (url : String) (w : World) (err : String)
    (h : r.handle url = .error err) :
    r.Get url w = (([], some err), { w with calls := w.calls ++ [url] }) := by
  simp only [UpStream.Get, h]

theorem Pass_get_ok (upstream : UpStream) (req : Request) (resp : Response)
    (hm : req.Method = "GET") (hg : upstream.handle (target req) = .ok resp) :
    (upstream.Pass req ⟨ResponseWriter.fresh, []⟩).res.body = resp.Body.1 ∧
    (upstream.Pass req ⟨ResponseWriter.fresh, []⟩).res.status = some 200 := by
  simp only [UpStream.Pass, hm, ne_eq, not_true_eq_false, if_false, UpStream.Get, hg]
  split <;>
    simp [ResponseWriter.Write, ResponseWriter.WriteHeader, ResponseWriter.fresh]

/-- C7: for every GET that reaches the handler and for which the upstream GET and the body
read succeed, the body written is exactly the upstream body, and the status sent is the
implicit 200 whatever the status code of the upstream response. -/
theorem C7_relay (upstream : UpStream) (req : Request) (resp : Response) (body : Bytes)
    (hm : req.Method = "GET") (hg : upstream.handle (target req) = .ok resp)
    (hb : resp.Body = (body, none)) :
    (upstream.Pass req ⟨ResponseWriter.fresh, []⟩).res.body = body ∧
    (upstream.Pass req ⟨ResponseWriter.fresh, []⟩).res.status = some 200 ∧
    (∀ allowed, ServeMux.ServeHTTP (routes allowed) req = .handler →
      (serve allowed upstream req).2.res.body = body ∧
      statusOf (serve allowed upstream req).2 = 200) := by
  obtain ⟨hbody, hstatus⟩ := Pass_get_ok upstream req resp hm hg
  rw [hb] at hbody
  refine ⟨hbody, hstatus, ?_⟩
  intro allowed hd
  rw [serve_handler _ _ _ hd]
  exact ⟨hbody, by rw [statusOf, hstatus]; rfl⟩

/-- C7, witness: the upstream answers `GET /_ping` with status 404 and the body `{}`; the
gateway writes `{}` under status 200. -/
theorem C7_relay_witness :
    (serve ["ping"] jsonUpstream ⟨"GET", ⟨"/_ping", "", false⟩⟩).2.res.body = [123, 125] ∧
    statusOf (serve ["ping"] jsonUpstream ⟨"GET", ⟨"/_ping", "", false⟩⟩).2 = 200 :=
  (C7_relay jsonUpstream ⟨"GET", ⟨"/_ping", "", false⟩⟩
    ⟨404, Header.empty.Set "Content-Type" "application/json", ([123, 125], none)⟩ [123, 125]
    rfl rfl rfl).2.2 ["ping"] (by decide)

/-! ## C8: upstream failure -/

/-- C8: for every GET that reaches the handler, if the upstream dial or GET fails, the
forwarding operation returns the error and no body, and the handler writes an empty body
under the implicit status 200 without any header; if the GET succeeds but the body read
fails part-way, the handler writes exactly the bytes read so far, again under status 200. -/
theorem C8_failure_swallowed (upstream : UpStream) (req : Request) (hm : req.Method = "GET") :
    (∀ err, upstream.handle (target req) = .error err →
      (upstream.Get (target req) ⟨ResponseWriter.fresh, []⟩).1 = ([], some err) ∧
      (upstream.Pass req ⟨ResponseWriter.fresh, []⟩).res.body = [] ∧
      (upstream.Pass req ⟨ResponseWriter.fresh, []⟩).res.status = some 200 ∧
      (upstream.Pass req ⟨ResponseWriter.fresh, []⟩).res.header = Header.empty) ∧
    (∀ resp part err, upstream.handle (target req) = .ok resp →
      resp.Body = (part, some err) →
      (upstream.Pass req ⟨ResponseWriter.fresh, []⟩).res.body = part ∧
      (upstream.Pass req ⟨ResponseWriter.fresh, []⟩).res.status = some 200) := by
  have hP := Pass_get upstream req ⟨ResponseWriter.fresh, []⟩ hm
  refine ⟨?_, ?_⟩
  · intro err he
    have hG := Get_error upstream (target req) ⟨ResponseWriter.fresh, []⟩ err he
    rw [hP, hG]
    exact ⟨rfl, rfl, rfl, rfl⟩
  · intro resp part err hg hb
    obtain ⟨hbody, hstatus⟩ := Pass_get_ok upstream req resp hm hg
    rw [hb] at hbody
    exact ⟨hbody, hstatus⟩

/-- C8, witness: with an unreachable socket `GET /_ping` yields an empty body under status
200 and no `Content-type`; with a body that breaks off after three bytes, those three bytes
are written under status 200. -/
theorem C8_failure_swallowed_witness :
    (deadUpstream.Pass ⟨"GET", ⟨"/_ping", "", false⟩⟩ ⟨ResponseWriter.fresh, []⟩).res.body = [] ∧
    (deadUpstream.Pass ⟨"GET", ⟨"/_ping", "", false⟩⟩ ⟨ResponseWriter.fresh, []⟩).res.status =
      some 200 ∧
    (deadUpstream.Pass ⟨"GET", ⟨"/_ping", "", false⟩⟩ ⟨ResponseWriter.fresh, []⟩).res.header =
      Header.empty ∧
    (brokenUpstream.Pass ⟨"GET", ⟨"/_ping", "", false⟩⟩ ⟨ResponseWriter.fresh, []⟩).res.body =
      [1, 2, 3] ∧
    (brokenUpstream.Pass ⟨"GET", ⟨"/_ping", "", false⟩⟩ ⟨ResponseWriter.fresh, []⟩).res.status =
      some 200 :=
  ⟨((C8_failure_swallowed deadUpstream ⟨"GET", ⟨"/_ping", "", false⟩⟩ rfl).1 _ rfl).2.1,
    ((C8_failure_swallowed deadUpstream ⟨"GET", ⟨"/_ping", "", false⟩⟩ rfl).1 _ rfl).2.2.1,
    ((C8_failure_swallowed deadUpstream ⟨"GET", ⟨"/_ping", "", false⟩⟩ rfl).1 _ rfl).2.2.2,
    ((C8_failure_swallowed brokenUpstream ⟨"GET", ⟨"/_ping", "", false⟩⟩ rfl).2
      ⟨200, Header.empty, ([1, 2, 3], some "unexpected EOF")⟩ [1, 2, 3] "unexpected EOF"
      rfl rfl).1,
    ((C8_failure_swallowed brokenUpstream ⟨"GET", ⟨"/_ping", "", false⟩⟩ rfl).2
      ⟨200, Header.empty, ([1, 2, 3], some "unexpected EOF")⟩ [1, 2, 3] "unexpected EOF"
      rfl rfl).2⟩

/-! ## C9: the body of the 400 response -/

/-- C9, as stated, fails: with `ping` allowed, the body written for `POST /_ping` is not the
35 bytes of the literal; it has 36 bytes, the literal and a final newline. -/
theorem C9_counterexample :
    (serve ["ping"] jsonUpstream ⟨"POST", ⟨"/_ping", "", false⟩⟩).1 = .handler ∧
    (asciiBytes "400 Bad request ; only GET allowed.").length = 35 ∧
    (serve ["ping"] jsonUpstream ⟨"POST", ⟨"/_ping", "", false⟩⟩).2.res.body.length = 36 ∧
    (serve ["ping"] jsonUpstream ⟨"POST", ⟨"/_ping", "", false⟩⟩).2.res.body ≠
      asciiBytes "400 Bad request ; only GET allowed." ∧
    (serve ["ping"] jsonUpstream ⟨"POST", ⟨"/_ping", "", false⟩⟩).2.res.body.getLast? =
      some 10 :=
  ⟨by decide, by decide, by decide, by decide, by decide⟩

/-- C9 (amended): for every request that reaches the handler with a method other than `GET`,
the body written is the literal text `400 Bad request ; only GET allowed.` followed by one
newline, 36 bytes in all, and nothing else. -/
theorem C9_body (upstream : UpStream) (req : Request) (h : req.Method ≠ "GET") :
    (upstream.Pass req ⟨ResponseWriter.fresh, []⟩).res.body =
      asciiBytes "400 Bad request ; only GET allowed." ++ asciiBytes "\n" ∧
    (upstream.Pass req ⟨ResponseWriter.fresh, []⟩).res.body.length = 36 ∧
    (∀ allowed, ServeMux.ServeHTTP (routes allowed) req = .handler →
      (serve allowed upstream req).2.res.body =
        asciiBytes "400 Bad request ; only GET allowed." ++ asciiBytes "\n") := by
  have hP := Pass_not_get upstream req ⟨ResponseWriter.fresh, []⟩ h
  refine ⟨?_, ?_, ?_⟩
  · rw [hP]; rfl
  · rw [hP]; decide
  · intro allowed hd
    rw [serve_handler _ _ _ hd, hP]; rfl

/-- C9, witness: `DELETE /v1.24/_ping` with `ping` allowed. -/
theorem C9_body_witness :
    (serve ["ping"] jsonUpstream ⟨"DELETE", ⟨"/v1.24/_ping", "", false⟩⟩).2.res.body =
      asciiBytes "400 Bad request ; only GET allowed." ++ asciiBytes "\n" :=
  (C9_body jsonUpstream ⟨"DELETE", ⟨"/v1.24/_ping", "", false⟩⟩ (by decide)).2.2 ["ping"]
    (by decide)

/-! ## C10: unrecognized names -/

theorem added_congr (am1 am2 : BoolMap) (tpl : Template)
    (h : ∀ c ∈ Spec.categories, am1 c = am2 c) : added am1 tpl = added am2 tpl := by
  simp only [added, h "containers" (by decide), h "images" (by decide),
    h "volumes" (by decide), h "networks" (by decide), h "services" (by decide),
    h "tasks" (by decide), h "events" (by decide), h "version" (by decide),
    h "info" (by decide), h "ping" (by decide)]

theorem routes_congr (a b : List String) (h : ∀ c ∈ Spec.categories, c ∈ a ↔ c ∈ b) :
    routes a = routes b := by
  have hc : ∀ c ∈ Spec.categories, allowedMap a c = allowedMap b c := by
    intro c hcat
    have h1 := allowedMap_iff a c
    have h2 := allowedMap_iff b c
    have h3 := h c hcat
    cases ha : allowedMap a c <;> cases hb : allowedMap b c <;> simp_all
  rw [routes_eq, routes_eq, added_congr _ _ _ hc, added_congr _ _ _ hc]

theorem not_allowedPath_of_unrecognized (allowed : List String)
    (h : ∀ s ∈ allowed, s ∉ Spec.categories) (path : String) :
    ¬ Spec.allowedPath allowed path := by
  rintro ⟨e, he, ha, -⟩
  exact h e.1 ha (List.mem_map.2 ⟨e, he, rfl⟩)

/-- C10, as stated, fails in its last part: the Allowed Set `{"bogus"}` holds no recognized
name, yet `GET //x` is answered with a 301 redirect, not with 404. -/
theorem C10_counterexample :
    (∀ s ∈ ["bogus"], s ∉ Spec.categories) ∧
    statusOf (serve ["bogus"] deadUpstream ⟨"GET", ⟨"//x", "", false⟩⟩).2 = 301 ∧
    statusOf (serve ["bogus"] deadUpstream ⟨"GET", ⟨"//x", "", false⟩⟩).2 ≠ 404 :=
  ⟨by decide, by decide, by decide⟩

/-- C10 (amended): for every list of names, the routes registered are those registered for
the sub-list of recognized names, and any two lists that hold the same recognized names
register the same routes, so names outside the ten categories never change what is routed;
a non-empty list produces no error.  A list without any recognized name registers no handler
route (only the empty version mount of line 95): no request is forwarded, and every request
with a canonical path gets 404. -/
theorem C10_unrecognized_ignored (allowed : List String) :
    routes allowed = routes (allowed.filter (· ∈ Spec.categories)) ∧
    (∀ other : List String, (∀ c ∈ Spec.categories, c ∈ allowed ↔ c ∈ other) →
      routes other = routes allowed) ∧
    (allowed ≠ [] → main allowed = some (routes (allowed.filter (· ∈ Spec.categories)))) ∧
    ((∀ s ∈ allowed, s ∉ Spec.categories) →
      routes allowed = [.sub versionTemplate []] ∧
      ∀ upstream req,
        (serve allowed upstream req).1 ≠ .handler ∧
        (serve allowed upstream req).2.calls = [] ∧
        (cleanPath req.URL.Path = req.URL.Path →
          statusOf (serve allowed upstream req).2 = 404)) := by
  have hfilter : routes allowed = routes (allowed.filter (· ∈ Spec.categories)) := by
    apply routes_congr
    intro c hc
    simp [List.mem_filter, hc]
  refine ⟨hfilter, ?_, ?_, ?_⟩
  · intro other h
    exact (routes_congr allowed other h).symm
  · intro hne
    have : ¬ allowed.length < 1 := by
      cases allowed with
      | nil => exact absurd rfl hne
      | cons a l => simp
    simp only [main, this, if_false, ← hfilter]
  · intro h
    refine ⟨?_, ?_⟩
    · have hf : ∀ c ∈ Spec.categories, allowedMap allowed c = false := by
        intro c hc
        cases hq : allowedMap allowed c with
        | false => rfl
        | true => exact absurd hc (h c ((allowedMap_iff _ _).1 hq))
      rw [routes_eq]
      simp [added, hf "containers" (by decide), hf "images" (by decide),
        hf "volumes" (by decide), hf "networks" (by decide), hf "services" (by decide),
        hf "tasks" (by decide), hf "events" (by decide), hf "version" (by decide),
        hf "info" (by decide), hf "ping" (by decide)]
    · intro upstream req
      have hm := anyMatch_false_of_not_allowed allowed req.URL.Path
        (not_allowedPath_of_unrecognized allowed h _)
      have hu := unmatched_not_forwarded allowed upstream req hm
      refine ⟨?_, hu.1, hu.2.1⟩
      rw [serve_fst]
      intro hd
      have := ((dispatch_handler_iff _ _).1 hd).2
      rw [hm] at this
      exact Bool.noConfusion this

/-- C10, witness: `-a bogus -a ping -a bogus` registers what `-a ping` registers, and with
`-a bogus` alone `GET /_ping` gets 404 without any upstream GET. -/
theorem C10_unrecognized_ignored_witness :
    routes ["bogus", "ping", "bogus"] = routes ["ping"] ∧
    main ["bogus", "ping", "bogus"] = some (routes ["ping"]) ∧
    routes ["bogus"] = [.sub versionTemplate []] ∧
    (serve ["bogus"] jsonUpstream ⟨"GET", ⟨"/_ping", "", false⟩⟩).2.calls = [] ∧
    statusOf (serve ["bogus"] jsonUpstream ⟨"GET", ⟨"/_ping", "", false⟩⟩).2 = 404 :=
  ⟨(C10_unrecognized_ignored ["bogus", "ping", "bogus"]).1,
    (C10_unrecognized_ignored ["bogus", "ping", "bogus"]).2.2.1 (by decide),
    ((C10_unrecognized_ignored ["bogus"]).2.2.2 (by decide)).1,
    (((C10_unrecognized_ignored ["bogus"]).2.2.2 (by decide)).2 jsonUpstream
      ⟨"GET", ⟨"/_ping", "", false⟩⟩).2.1,
    (((C10_unrecognized_ignored ["bogus"]).2.2.2 (by decide)).2 jsonUpstream
      ⟨"GET", ⟨"/_ping", "", false⟩⟩).2.2 (by decide)⟩

end DockerProxyAcl
